import Mathlib

/-!
Verification development for the `expand` Azure-function core
(`src/expand/__init__.py`): a recurrence-specification parser
(`parse_rrule` and its helpers) feeding `dateutil.rrule`, and the instance
generator `next_instances` (which is `rrule.xafter(dtstart, count, inc=False)`
over dateutil's `_iter`).

Dates and datetimes are modelled by their proleptic-Gregorian ordinal
(`datetime.date.toordinal`: 0001-01-01 = 1); all datetimes built by the
program are at midnight, so datetime comparison coincides with ordinal
comparison.  The generator, which Python evaluates lazily, is modelled with
explicit fuel counted in generation periods: `none` means the loop has not
terminated within the given fuel (so a rule whose evaluation never
terminates is `none` for every fuel), `some l` means the loop finished and
emitted exactly the list `l`.
-/

/-! ### Calendar arithmetic (models Python `datetime` / `calendar`) -/

/-- `calendar.isleap`. -/
def isLeap (y : Int) : Bool :=
  (y % 4 == 0 && y % 100 != 0) || y % 400 == 0

/-- Days in month `m` of year `y` (`calendar.monthrange(y, m)[1]`); months are
1..12 in every reachable state, other values return an arbitrary default. -/
def daysInMonth (y m : Int) : Int :=
  if m = 2 then (if isLeap y then 29 else 28)
  else if m = 4 ∨ m = 6 ∨ m = 9 ∨ m = 11 then 30
  else 31

/-- Days strictly before month `m` in year `y` (cumulative month lengths). -/
def daysBeforeMonth (y m : Int) : Int :=
  (if m = 1 then 0
   else if m = 2 then 31
   else if m = 3 then 59
   else if m = 4 then 90
   else if m = 5 then 120
   else if m = 6 then 151
   else if m = 7 then 181
   else if m = 8 then 212
   else if m = 9 then 243
   else if m = 10 then 273
   else if m = 11 then 304
   else 334)
  + (if 2 < m ∧ isLeap y then 1 else 0)

/-- `datetime.date(y, m, d).toordinal()` (proleptic Gregorian, 0001-01-01 = 1). -/
def toOrd (y m d : Int) : Int :=
  365 * (y - 1) + (y - 1) / 4 - (y - 1) / 100 + (y - 1) / 400
    + daysBeforeMonth y m + d

/-- Inverse of `toOrd` (`datetime.date.fromordinal`), via the standard
civil-from-days algorithm; all divisors are positive so `ediv` is floor
division as in Python. -/
def fromOrd (o : Int) : Int × Int × Int :=
  let z := o + 305
  let era := z / 146097
  let doe := z - era * 146097
  let yoe := (doe - doe / 1460 + doe / 36524 - doe / 146096) / 365
  let y0 := yoe + era * 400
  let doy := doe - (365 * yoe + yoe / 4 - yoe / 100)
  let mp := (5 * doy + 2) / 153
  let d := doy - (153 * mp + 2) / 5 + 1
  let m := mp + (if mp < 10 then 3 else -9)
  (y0 + (if m ≤ 2 then 1 else 0), m, d)

/-- `datetime.date.weekday()` of an ordinal: Monday = 0 .. Sunday = 6. -/
def wd (o : Int) : Int := (o - 1) % 7

/-- `datetime.MAXYEAR`. -/
def MAXYEAR : Int := 9999

/-- Ordinal of `datetime.date(MAXYEAR, 12, 31)`, the largest representable
ordinal: dateutil's generation loop returns when it would pass this. -/
def maxOrd : Int := toOrd 9999 12 31

/-- Zero-pad to 2 digits (for `strftime('%Y-%m-%d')`). -/
def pad2 (n : Int) : String :=
  if n < 10 then "0" ++ toString n else toString n

/-- Zero-pad to 4 digits (for `strftime('%Y-%m-%d')`). -/
def pad4 (n : Int) : String :=
  if n < 10 then "000" ++ toString n
  else if n < 100 then "00" ++ toString n
  else if n < 1000 then "0" ++ toString n
  else toString n

/-- `dt.strftime('%Y-%m-%d')` on the date with the given ordinal: how `main`
serializes each generated instance. -/
def fmtDate (o : Int) : String :=
  match fromOrd o with
  | (y, m, d) => pad4 y ++ "-" ++ pad2 m ++ "-" ++ pad2 d

example : toOrd 2024 1 1 = 738886 := by decide
example : wd (toOrd 2024 1 1) = 0 := by decide
example : fromOrd (toOrd 2024 2 29) = (2024, 2, 29) := by decide
example : fromOrd (toOrd 1 1 1) = (1, 1, 1) := by decide
example : fmtDate (toOrd 2024 1 3) = "2024-01-03" := by decide

/-! ### Sorted duplicate-free insertion (models Python `sorted(set(...))`
and the sort-with-dedup done on `poslist`). -/

/-- Insert into an ascending duplicate-free list, keeping it so. -/
def insertU (a : Int) : List Int → List Int
  | [] => [a]
  | b :: t => if a < b then a :: b :: t else if a == b then b :: t else b :: insertU a t

/-- Ascending duplicate-free list with the same members as `l`
(Python `sorted(set(l))`). -/
def sortDedup (l : List Int) : List Int := l.foldr insertU []

example : sortDedup [3, 1, 3, -1, 2] = [-1, 1, 2, 3] := by decide

/-! ### Raw input values and Python `int()` -/

/-- A JSON scalar as it reaches the parser from the request body (the fields
this program converts with `int()` are numbers or strings). -/
inductive JVal where
  | jstr (s : String)
  | jint (n : Int)
deriving DecidableEq, Repr

/-- Lower-casing of a string, character by character (Python `str.lower`,
which the enum-by-value lookups apply; ASCII suffices for the tokens
compared against). -/
def lowerStr (s : String) : String := String.mk (s.data.map Char.toLower)

/-- Numeric value of a list of decimal digits. -/
def digitsToNat (l : List Char) : Nat :=
  l.foldl (fun acc c => acc * 10 + (c.toNat - 48)) 0

/-- Integer-literal parsing as done by Python `int(str)`: optional
surrounding whitespace, an optional sign, then decimal digits. -/
def parseIntStr (s : String) : Option Int :=
  let t := (s.data.dropWhile (· == ' ')).reverse.dropWhile (· == ' ') |>.reverse
  let neg := t.take 1 == ['-']
  let core := if t.take 1 == ['-'] || t.take 1 == ['+'] then t.drop 1 else t
  if core.length > 0 && core.all Char.isDigit then
    some (if neg then -(digitsToNat core : Int) else (digitsToNat core : Int))
  else none

/-- Python `int(x)`: identity on ints, literal parsing on strings; failure
raises `ValueError`. -/
def pyInt : JVal → Except String Int
  | .jint n => .ok n
  | .jstr s =>
    match parseIntStr s with
    | some n => .ok n
    | none => .error ("invalid literal for int() with base 10: '" ++ s ++ "'")

example : pyInt (.jstr " -12 ") = .ok (-12) := by rfl
example : pyInt (.jstr "1.5") =
    .error "invalid literal for int() with base 10: '1.5'" := by rfl

/-! ### The raw request body and the parsed pieces -/

/-- A calendar date as produced by `parse_datetime` (the time component of
the resulting `datetime` is always midnight). -/
structure Date where
  y : Int
  m : Int
  d : Int
deriving DecidableEq, Repr

/-- Ordinal of a `Date`. -/
def ordOf (dt : Date) : Int := toOrd dt.y dt.m dt.d

/-- The untrusted request body: `body.get(field, default)` is modelled by
`Option` fields (lists default to `[]` exactly as in the code).  The wire
field `until` is spelled `untl` here because `until` is a Lean keyword. -/
structure Body where
  freq : Option String := none
  start : Option String := none
  interval : Option JVal := none
  untl : Option String := none
  month_type : Option String := none
  month_nth_days : List String := []
  month_days : List JVal := []
  week_days : List String := []

/-- dateutil frequency constants (`YEARLY = 0 .. SECONDLY = 6`); this program
only ever produces `MONTHLY` and `WEEKLY`. -/
def MONTHLY : Nat := 1

/-- dateutil `WEEKLY` constant. -/
def WEEKLY : Nat := 2

/-- `MAX_COUNT` from the source. -/
def MAX_COUNT : Nat := 1000

/-- `WEEKDAYS = [MO,TU,WE,TH,FR]` from the source, as weekday numbers. -/
def WEEKDAYS : List Int := [0, 1, 2, 3, 4]

/-- The four `MonthTypeValues` enum members. -/
inductive MonthTypeValues where
  | days_of_week
  | days_of_month
  | first_weekday
  | last_weekday
deriving DecidableEq, Repr

/-- `parse_freq`: the `FreqValues` lookup is case-sensitive; `"weeks"` maps to
dateutil `WEEKLY`, `"months"` to `MONTHLY`, anything else raises
`Unknown freq`. -/
def parse_freq (s : String) : Except String Nat :=
  if s == "weeks" then .ok WEEKLY
  else if s == "months" then .ok MONTHLY
  else .error ("Unknown freq: \"" ++ s ++ "\"")

/-- `parse_week_day`: the `WeekDayValues` lookup is on `s.lower()`; returns
the dateutil weekday constant's number (`MO.weekday = 0` .. `SU.weekday = 6`). -/
def parse_week_day (s : String) (i : Nat) : Except String Int :=
  let t := lowerStr s
  if t == "monday" then .ok 0
  else if t == "tuesday" then .ok 1
  else if t == "wednesday" then .ok 2
  else if t == "thursday" then .ok 3
  else if t == "friday" then .ok 4
  else if t == "saturday" then .ok 5
  else if t == "sunday" then .ok 6
  else .error ("Unknown weekday: \"" ++ s ++ "\" (" ++ toString i ++ ")")

/-- `parse_week_days`: each entry parsed with its zero-based index. -/
def parse_week_days (raw : List String) : Except String (List Int) :=
  go 0 raw
where
  /-- Worker carrying the `enumerate` index. -/
  go (i : Nat) : List String → Except String (List Int)
    | [] => .ok []
    | s :: t =>
      match parse_week_day s i with
      | .error e => .error e
      | .ok w =>
        match go (i + 1) t with
        | .error e => .error e
        | .ok ws => .ok (w :: ws)

/-- `parse_month_type`: the `MonthTypeValues` lookup is on `s.lower()`. -/
def parse_month_type (s : String) : Except String MonthTypeValues :=
  let t := lowerStr s
  if t == "days of week" then .ok .days_of_week
  else if t == "days of month" then .ok .days_of_month
  else if t == "first weekday" then .ok .first_weekday
  else if t == "last weekday" then .ok .last_weekday
  else .error ("Unknown month type: \"" ++ s ++ "\"")

/-- `parse_month_days`: `[int(s) for s in raw]`. -/
def parse_month_days : List JVal → Except String (List Int)
  | [] => .ok []
  | v :: t =>
    match pyInt v with
    | .error e => .error e
    | .ok n =>
      match parse_month_days t with
      | .error e => .error e
      | .ok ns => .ok (n :: ns)

/-- `parse_month_nth_day`: the `MonthNthDayValues` lookup is case-sensitive. -/
def parse_month_nth_day (s : String) (i : Nat) : Except String Int :=
  if s == "1st" then .ok 1
  else if s == "2nd" then .ok 2
  else if s == "3rd" then .ok 3
  else if s == "4th" then .ok 4
  else if s == "last" then .ok (-1)
  else .error ("Unknown Month nth value: \"" ++ s ++ "\" (" ++ toString i ++ ")")

/-- `parse_month_nth_days`: each entry parsed with its zero-based index. -/
def parse_month_nth_days (raw : List String) : Except String (List Int) :=
  go 0 raw
where
  /-- Worker carrying the `enumerate` index. -/
  go (i : Nat) : List String → Except String (List Int)
    | [] => .ok []
    | s :: t =>
      match parse_month_nth_day s i with
      | .error e => .error e
      | .ok n =>
        match go (i + 1) t with
        | .error e => .error e
        | .ok ns => .ok (n :: ns)

/-- `parse_datetime`: `datetime.strptime(s, '%Y-%m-%d')`.  CPython's
`_strptime` matches `%Y` as exactly four digits and `%m`/`%d` as one or two
digits in range, then the `datetime` constructor validates the day against
the month length and the year against `MINYEAR = 1` / `MAXYEAR = 9999`.
The real error message appends the underlying exception text; it is fixed
to `": invalid"` here since no claim inspects it. -/
def splitOnDash : List Char → List (List Char)
  | [] => [[]]
  | c :: t =>
    if c == '-' then [] :: splitOnDash t
    else
      match splitOnDash t with
      | [] => [[c]]
      | p :: ps => (c :: p) :: ps

example : splitOnDash "2024-01-1".data = ["2024".data, "01".data, "1".data] := by decide

def parse_datetime (s : String) : Except String Date :=
  match splitOnDash s.data with
  | [ys, ms, ds] =>
    if ys.length == 4 && ys.all Char.isDigit
        && decide (0 < ms.length) && ms.length ≤ 2 && ms.all Char.isDigit
        && decide (0 < ds.length) && ds.length ≤ 2 && ds.all Char.isDigit then
      if 1 ≤ (digitsToNat ys : Int) ∧ (digitsToNat ys : Int) ≤ MAXYEAR
          ∧ 1 ≤ (digitsToNat ms : Int) ∧ (digitsToNat ms : Int) ≤ 12
          ∧ 1 ≤ (digitsToNat ds : Int)
          ∧ (digitsToNat ds : Int) ≤ daysInMonth (digitsToNat ys) (digitsToNat ms) then
        .ok ⟨(digitsToNat ys : Int), (digitsToNat ms : Int), (digitsToNat ds : Int)⟩
      else .error ("Unknown date string: \"" ++ s ++ "\": invalid")
    else .error ("Unknown date string: \"" ++ s ++ "\": invalid")
  | _ => .error ("Unknown date string: \"" ++ s ++ "\": invalid")

example : parse_datetime "2024-01-01" = .ok ⟨2024, 1, 1⟩ := by rfl
example : parse_datetime "2024-2-29" = .ok ⟨2024, 2, 29⟩ := by rfl
example : (parse_datetime "2023-02-29").isOk = false := by rfl
example : (parse_datetime "01-01-2024").isOk = false := by rfl

example : lowerStr "FIRST WEEKDAY" = "first weekday" := by rfl

/-! ### The dateutil `rrule` object, restricted to the parameters this
program passes (`freq`, `dtstart`, `interval`, `until`, `bysetpos`,
`bymonthday`, `byweekday`; `count` is never passed and is kept only because
`is_finite` reads it).  Fields hold the *normalized* `_byxxx` attributes
computed by `rrule.__init__`. -/

structure RRule where
  freq : Nat
  dtstart : Date
  interval : Int
  count : Option Nat
  /-- `_until` as an ordinal (`until` is a Lean keyword). -/
  untl : Option Int
  /-- `_byweekday`: `None`, or a nonempty sorted duplicate-free tuple. -/
  byweekday : Option (List Int)
  /-- `_bymonthday`: sorted positive month days. -/
  bymonthday : List Int
  /-- `_bynmonthday`: sorted negative month days. -/
  bynmonthday : List Int
  /-- `_bysetpos`: a tuple in the given order; `()` when not passed. -/
  bysetpos : List Int
deriving DecidableEq, Repr

/-- The `bysetpos` argument as this program passes it: absent, a single
integer, or a list (from `parse_month_nth_days`). -/
inductive BySetPosArg where
  | noPos
  | onePos (n : Int)
  | manyPos (l : List Int)

/-- `rrule.__init__`'s validation and normalization of `bysetpos`. -/
def checkBysetpos : BySetPosArg → Except String (List Int)
  | .noPos => .ok []
  | .onePos n =>
    if n == 0 || decide (n < -366) || decide (366 < n) then
      .error "bysetpos must be between 1 and 366, or between -366 and -1"
    else .ok [n]
  | .manyPos l =>
    if l.any (fun p => p == 0 || decide (p < -366) || decide (366 < p)) then
      .error "bysetpos must be between 1 and 366, or between -366 and -1"
    else .ok l

/-- `rrule.__init__` for the argument shapes this program uses.  Of the
default-selector block only the `MONTHLY`/`WEEKLY` cases are modelled
(`freq` is always one of those here), and `byweekday` entries are always
plain weekday constants without an `n` (`MO..SU`), so `_bynweekday` is
always empty and is dropped. -/
def rruleCtor (freq : Nat) (dtstart : Date) (interval : Int)
    (untl : Option Date) (bysetpos : BySetPosArg)
    (bymonthday : Option (List Int)) (byweekday : Option (List Int)) :
    Except String RRule :=
  match checkBysetpos bysetpos with
  | .error e => .error e
  | .ok poss =>
    -- dtstart-derived defaults, applied only when the *arguments* are None
    -- (byweekno, byyearday and byeaster are never passed by this program)
    let defaults := bymonthday == none && byweekday == none
    let bymonthday := if defaults && freq == MONTHLY then some [dtstart.d] else bymonthday
    let byweekday := if defaults && freq == WEEKLY then some [wd (ordOf dtstart)] else byweekday
    let bymd := match bymonthday with
      | none => ([], [])
      | some l => (sortDedup (l.filter (fun x => decide (0 < x))),
                   sortDedup (l.filter (fun x => decide (x < 0))))
    let bywd := match byweekday with
      | none => none
      | some l => let s := sortDedup l; if s.isEmpty then none else some s
    .ok { freq := freq, dtstart := dtstart, interval := interval, count := none,
          untl := untl.map ordOf, byweekday := bywd,
          bymonthday := bymd.1, bynmonthday := bymd.2, bysetpos := poss }

/-- The monthly branches of `parse_rrule` (after `month_type` is parsed). -/
def buildMonthly (body : Body) (start : Date) (interval : Int)
    (untl : Option Date) : MonthTypeValues → Except String RRule
  | .days_of_month =>
    match parse_month_days body.month_days with
    | .error e => .error e
    | .ok month_days =>
      rruleCtor MONTHLY start interval untl .noPos (some month_days) none
  | .days_of_week =>
    match parse_month_nth_days body.month_nth_days with
    | .error e => .error e
    | .ok month_nth_days =>
      match parse_week_days body.week_days with
      | .error e => .error e
      | .ok week_days =>
        rruleCtor MONTHLY start interval untl (.manyPos month_nth_days)
          none (some week_days)
  | .first_weekday =>
    rruleCtor MONTHLY start interval untl (.onePos 1) none (some WEEKDAYS)
  | .last_weekday =>
    rruleCtor MONTHLY start interval untl (.onePos (-1)) none (some WEEKDAYS)

/-- `parse_rrule`, body after `freq`, `start`, `interval` and `until` have
been read; mirrors the `if freq == WEEKLY / if freq == MONTHLY` chain with
its final (unreachable) `Frequency not implemented` raise. -/
def buildRule (body : Body) (freq : Nat) (start : Date) (interval : Int)
    (untl : Option Date) : Except String RRule :=
  if freq == WEEKLY then
    match parse_week_days body.week_days with
    | .error e => .error e
    | .ok week_days =>
      rruleCtor WEEKLY start interval untl .noPos none (some week_days)
  else if freq == MONTHLY then
    match body.month_type with
    | none => .error "Missing required: month_type"
    | some raw_month_type =>
      match parse_month_type raw_month_type with
      | .error e => .error e
      | .ok month_type => buildMonthly body start interval untl month_type
  else
    -- the raise message is not an f-string in the source: literal braces
    .error "Frequency not implemented: \"\x7bfreq\x7d\""

/-- `parse_rrule`. -/
def parse_rrule (body : Body) : Except String RRule :=
  match body.freq with
  | none => .error "Missing required: freq"
  | some raw_freq =>
    match body.start with
    | none => .error "Missing required: start"
    | some raw_start =>
      match parse_freq raw_freq with
      | .error e => .error e
      | .ok freq =>
        match parse_datetime raw_start with
        | .error e => .error e
        | .ok start =>
          match pyInt (body.interval.getD (JVal.jint 1)) with
          | .error e => .error e
          | .ok interval =>
            match body.untl with
            | none => buildRule body freq start interval none
            | some raw_until =>
              match parse_datetime raw_until with
              | .error e => .error e
              | .ok u => buildRule body freq start interval (some u)

/-! ### The generator: dateutil `rrule._iter` composed with
`rrulebase.xafter(dtstart, count, inc=False)` as `next_instances` uses it.

Since every datetime involved is at midnight, `_timeset` always has exactly
one element (`00:00:00`), which simplifies the `bysetpos` arithmetic
(`divmod(pos, len(timeset))` is `(pos, 0)`); days are ordinals. -/

/-- The day filter applied inside `_iter` for the `_byxxx` attributes this
program can produce (`_bymonth`, `_byweekno`, `_bynweekday`, `_byeaster`,
`_byyearday` are never set).  `dm` is the day-of-month (`mdaymask`) and
`dl` the month length, so `dm - 1 - dl` is the `nmdaymask` value. -/
def dayKeep (r : RRule) (o dm dl : Int) : Bool :=
  (match r.byweekday with
   | some s => s.contains (wd o)
   | none => true)
  && (if r.bymonthday.isEmpty && r.bynmonthday.isEmpty then true
      else r.bymonthday.contains dm || r.bynmonthday.contains (dm - 1 - dl))

/-- `_iterinfo.wdayset` filtered: the days from `d` up to (excluding) the
next week-start day (`wkst = calendar.firstweekday() = 0`, Monday, which the
program never changes), i.e. `7 - wd d` consecutive days. -/
def weeklyDays (r : RRule) (d : Int) : List Int :=
  ((List.range (7 - wd d).toNat).map (fun (j : Nat) => d + (j : Int))).filter
    (fun o =>
      match fromOrd o with
      | (y, m, dm) => dayKeep r o dm (daysInMonth y m))

/-- `_iterinfo.mdayset` filtered: the days of month `m` of year `y` that
pass the filter. -/
def monthlyDays (r : RRule) (y m : Int) : List Int :=
  (List.range (daysInMonth y m).toNat).filterMap (fun (j : Nat) =>
    if dayKeep r (toOrd y m 1 + (j : Int)) ((j : Int) + 1) (daysInMonth y m)
    then some (toOrd y m 1 + (j : Int)) else none)

/-- Python list indexing with negative-index support (`IndexError` is
`none`, skipped by the `bysetpos` loop). -/
def pyIndex (l : List Int) (i : Int) : Option Int :=
  if 0 ≤ i then l.get? i.toNat
  else if 0 ≤ (l.length : Int) + i then l.get? ((l.length : Int) + i).toNat
  else none

/-- The `bysetpos` selection of `_iter`: for each `pos`, pick the candidate
at `pos - 1` (positive) or `pos` (negative, from the end); collect without
duplicates and sort (`poslist`).  `divmod` against the one-element timeset
keeps `timepos = 0`. -/
def setposSelect (cands : List Int) (poss : List Int) : List Int :=
  sortDedup (poss.filterMap (fun pos => pyIndex cands (if 0 < pos then pos - 1 else pos)))

/-- The emission set of one period: the filtered dayset, put through the
`bysetpos` branch when `_bysetpos` is non-empty. -/
def periodSel (r : RRule) (cands : List Int) : List Int :=
  if r.bysetpos.isEmpty then cands else setposSelect cands r.bysetpos

/-- One period's yield loop, fused with `xafter`'s filtering: for each
candidate `res` in order, `_iter` returns if `until` is set and `res >
until`; otherwise it yields `res` when `res ≥ dtstart`, and `xafter` (with
`inc=False`) passes it on when `res > dtstart`, breaking after `cap` dates
have been passed.  Returns the dates emitted, the updated `xafter` counter,
and whether generation stopped for good. -/
def emitDays (cap : Option Nat) (untl : Option Int) (dtstart : Int) :
    List Int → Nat → List Int × Nat × Bool
  | [], n => ([], n, false)
  | res :: rest, n =>
    if match untl with | some u => decide (u < res) | none => false then
      ([], n, true)
    else if dtstart < res then
      match cap with
      | some c =>
        if c ≤ n then ([], n, true)
        else
          let p := emitDays cap untl dtstart rest (n + 1)
          (res :: p.1, p.2)
      | none =>
        let p := emitDays cap untl dtstart rest n
        (res :: p.1, p.2)
    else emitDays cap untl dtstart rest n

/-- The `WEEKLY` main loop of `_iter`, by period: state is the ordinal `d`
of the current period's first day.  After a period, `day += -(weekday -
wkst) + interval*7` (with `wkst = 0`, so `wkst > weekday` never holds) and
the day/month/year fixup returns once the date passes `MAXYEAR`, i.e. once
the ordinal passes `maxOrd`.  `none` means fuel ran out before the loop
finished. -/
def runPeriodsW (r : RRule) (cap : Option Nat) :
    Nat → Int → Nat → Option (List Int)
  | 0, _, _ => none
  | fuel + 1, d, n =>
    match emitDays cap r.untl (ordOf r.dtstart) (periodSel r (weeklyDays r d)) n with
    | (out, _, true) => some out
    | (out, n2, false) =>
      let d2 := d - wd d + 7 * r.interval
      if maxOrd < d2 then some out
      else
        match runPeriodsW r cap fuel d2 n2 with
        | none => none
        | some rest => some (out ++ rest)

/-- One `month += interval` advancement of the `MONTHLY` loop: when the new
month passes 12 it is `divmod`-normalized (`month = mod; year += div`, and
`month == 0` becomes December of the previous year). -/
def monthAdvance (y m interval : Int) : Int × Int :=
  if 12 < m + interval then
    (if (m + interval) % 12 == 0 then y + (m + interval) / 12 - 1
     else y + (m + interval) / 12,
     if (m + interval) % 12 == 0 then 12 else (m + interval) % 12)
  else (y, m + interval)

/-- The `MONTHLY` main loop of `_iter`, by period: state is `(year, month)`.
After a period, `month += interval`; when the result passes 12 it is
`divmod`-normalized and generation returns if the year then passes
`MAXYEAR` (the source checks the year only inside the `month > 12` branch,
where the year was just recomputed; the conjunction below is the same
condition since the year is unchanged otherwise). -/
def runPeriodsM (r : RRule) (cap : Option Nat) :
    Nat → Int → Int → Nat → Option (List Int)
  | 0, _, _, _ => none
  | fuel + 1, y, m, n =>
    match emitDays cap r.untl (ordOf r.dtstart) (periodSel r (monthlyDays r y m)) n with
    | (out, _, true) => some out
    | (out, n2, false) =>
      if 12 < m + r.interval ∧ MAXYEAR < (monthAdvance y m r.interval).1 then some out
      else
        match runPeriodsM r cap fuel (monthAdvance y m r.interval).1
            (monthAdvance y m r.interval).2 n2 with
        | none => none
        | some rest => some (out ++ rest)

/-- Tail-recursive form of `runPeriodsW`, carrying the dates emitted so
far in reverse order (`List.reverseAux out acc`): evaluating a long run
this way keeps reduction depth bounded by one period.
`runPeriodsWAux_eq` proves it equal to `runPeriodsW`. -/
def runPeriodsWAux (r : RRule) (cap : Option Nat) :
    Nat → Int → Nat → List Int → Option (List Int)
  | 0, _, _, _ => none
  | fuel + 1, d, n, acc =>
    match emitDays cap r.untl (ordOf r.dtstart) (periodSel r (weeklyDays r d)) n with
    | (out, _, true) => some (List.reverseAux out acc).reverse
    | (out, n2, false) =>
      let d2 := d - wd d + 7 * r.interval
      if maxOrd < d2 then some (List.reverseAux out acc).reverse
      else runPeriodsWAux r cap fuel d2 n2 (List.reverseAux out acc)

/-- Tail-recursive form of `runPeriodsM` (see `runPeriodsWAux`);
`runPeriodsMAux_eq` proves it equal to `runPeriodsM`. -/
def runPeriodsMAux (r : RRule) (cap : Option Nat) :
    Nat → Int → Int → Nat → List Int → Option (List Int)
  | 0, _, _, _, _ => none
  | fuel + 1, y, m, n, acc =>
    match emitDays cap r.untl (ordOf r.dtstart) (periodSel r (monthlyDays r y m)) n with
    | (out, _, true) => some (List.reverseAux out acc).reverse
    | (out, n2, false) =>
      if 12 < m + r.interval ∧ MAXYEAR < (monthAdvance y m r.interval).1 then
        some (List.reverseAux out acc).reverse
      else
        runPeriodsMAux r cap fuel (monthAdvance y m r.interval).1
          (monthAdvance y m r.interval).2 n2 (List.reverseAux out acc)

/-- `is_finite` from the source. -/
def is_finite (r : RRule) : Bool := !(r.count == none && r.untl == none)

/-- The `count` argument `next_instances` hands to `xafter`:
`None if is_finite(r) else MAX_COUNT`. -/
def xafterCount (r : RRule) : Option Nat :=
  if is_finite r then none else some MAX_COUNT

/-- `next_instances(r) = r.xafter(r._dtstart, count=..., inc=False)`,
with the generator run for `fuel` periods; `none` means the underlying
loop did not finish within `fuel` periods (in particular, a loop that
never terminates is `none` for every `fuel`).  Frequencies other than
`WEEKLY`/`MONTHLY` are never produced by `parse_rrule` (see
`parse_freq_weekly_or_monthly`). -/
def next_instances (r : RRule) (fuel : Nat) : Option (List Int) :=
  if r.freq == WEEKLY then
    runPeriodsWAux r (xafterCount r) fuel (ordOf r.dtstart) 0 []
  else if r.freq == MONTHLY then
    runPeriodsMAux r (xafterCount r) fuel r.dtstart.y r.dtstart.m 0 []
  else none

/-! ### Basic lemmas -/

theorem wd_nonneg (o : Int) : 0 ≤ wd o := by unfold wd; omega

theorem wd_lt_seven (o : Int) : wd o < 7 := by unfold wd; omega

theorem mem_insertU {x a : Int} {l : List Int} :
    x ∈ insertU a l ↔ x = a ∨ x ∈ l := by
  induction l with
  | nil => simp [insertU]
  | cons b t ih =>
    simp only [insertU]
    split
    · simp [List.mem_cons]
    · split
      · next hlt heq =>
        have hb : a = b := by simpa using heq
        subst hb
        simp [List.mem_cons]
      · simp only [List.mem_cons, ih]
        tauto

theorem pairwise_insertU {a : Int} {l : List Int}
    (h : l.Pairwise (· < ·)) : (insertU a l).Pairwise (· < ·) := by
  induction l with
  | nil => simp [insertU]
  | cons b t ih =>
    rw [List.pairwise_cons] at h
    simp only [insertU]
    split
    · next hlt =>
      rw [List.pairwise_cons]
      constructor
      · intro x hx
        rcases List.mem_cons.mp hx with rfl | hx
        · exact hlt
        · exact lt_trans hlt (h.1 x hx)
      · exact List.pairwise_cons.mpr h
    · split
      · exact List.pairwise_cons.mpr h
      · next hlt heq =>
        rw [List.pairwise_cons]
        refine ⟨?_, ih h.2⟩
        intro x hx
        rcases mem_insertU.mp hx with rfl | hx
        · simp only [beq_iff_eq] at heq
          omega
        · exact h.1 x hx

theorem pairwise_sortDedup (l : List Int) : (sortDedup l).Pairwise (· < ·) := by
  induction l with
  | nil => simp [sortDedup]
  | cons a t ih => exact pairwise_insertU ih

theorem mem_sortDedup {x : Int} {l : List Int} : x ∈ sortDedup l ↔ x ∈ l := by
  induction l with
  | nil => simp [sortDedup]
  | cons a t ih =>
    show x ∈ insertU a (sortDedup t) ↔ _
    rw [mem_insertU, List.mem_cons, ih]

theorem mem_of_pyIndex {l : List Int} {i : Int} {x : Int}
    (h : pyIndex l i = some x) : x ∈ l := by
  unfold pyIndex at h
  split at h
  · exact List.get?_mem h
  · split at h
    · exact List.get?_mem h
    · exact absurd h (by simp)

theorem mem_setposSelect {cands poss : List Int} {x : Int}
    (h : x ∈ setposSelect cands poss) : x ∈ cands := by
  unfold setposSelect at h
  rw [mem_sortDedup, List.mem_filterMap] at h
  obtain ⟨pos, _, hp⟩ := h
  exact mem_of_pyIndex hp

theorem pairwise_setposSelect (cands poss : List Int) :
    (setposSelect cands poss).Pairwise (· < ·) :=
  pairwise_sortDedup _

theorem mem_periodSel {r : RRule} {cands : List Int} {x : Int}
    (h : x ∈ periodSel r cands) : x ∈ cands := by
  unfold periodSel at h
  split at h
  · exact h
  · exact mem_setposSelect h

theorem pairwise_periodSel {r : RRule} {cands : List Int}
    (h : cands.Pairwise (· < ·)) : (periodSel r cands).Pairwise (· < ·) := by
  unfold periodSel
  split
  · exact h
  · exact pairwise_setposSelect _ _

/-! ### Candidate-list lemmas -/

theorem weeklyDays_bounds {r : RRule} {d x : Int} (h : x ∈ weeklyDays r d) :
    d ≤ x ∧ x ≤ d + 6 - wd d := by
  unfold weeklyDays at h
  obtain ⟨hx, -⟩ := List.mem_filter.mp h
  obtain ⟨j, hj, rfl⟩ := List.mem_map.mp hx
  rw [List.mem_range] at hj
  have h7 : (j : Int) < 7 - wd d := by omega
  omega

theorem weeklyDays_pairwise (r : RRule) (d : Int) :
    (weeklyDays r d).Pairwise (· < ·) := by
  unfold weeklyDays
  apply List.Pairwise.filter
  rw [List.pairwise_map]
  apply (List.pairwise_lt_range _).imp
  intro a b hab
  omega

theorem monthlyDays_bounds {r : RRule} {y m x : Int} (h : x ∈ monthlyDays r y m) :
    toOrd y m 1 ≤ x ∧ x ≤ toOrd y m 1 + daysInMonth y m - 1 := by
  unfold monthlyDays at h
  rw [List.mem_filterMap] at h
  obtain ⟨j, hj, hx⟩ := h
  rw [List.mem_range] at hj
  split at hx
  · have hxx : toOrd y m 1 + (j : Int) = x := by simpa using hx
    have h1 : (j : Int) < daysInMonth y m := by omega
    omega
  · exact absurd hx (by simp)

theorem monthlyDays_pairwise (r : RRule) (y m : Int) :
    (monthlyDays r y m).Pairwise (· < ·) := by
  unfold monthlyDays
  apply List.Pairwise.filterMap _ ?_ (List.pairwise_lt_range _)
  intro a b hab c hc dd hd
  simp only [Option.mem_def] at hc hd
  split at hc
  · split at hd
    · have hc2 : toOrd y m 1 + (a : Int) = c := by simpa using hc
      have hd2 : toOrd y m 1 + (b : Int) = dd := by simpa using hd
      omega
    · exact absurd hd (by simp)
  · exact absurd hc (by simp)

/-! ### `emitDays` lemmas -/

theorem emitDays_sublist (cap : Option Nat) (untl : Option Int) (dtstart : Int)
    (days : List Int) (n : Nat) :
    List.Sublist (emitDays cap untl dtstart days n).1 days := by
  induction days generalizing n with
  | nil => simp [emitDays]
  | cons res rest ih =>
    simp only [emitDays]
    split
    · exact List.nil_sublist _
    · split
      · split
        · split
          · exact List.nil_sublist _
          · exact List.Sublist.cons₂ _ (ih (n + 1))
        · exact List.Sublist.cons₂ _ (ih n)
      · exact List.Sublist.cons _ (ih n)

theorem emitDays_mem_dtstart {cap : Option Nat} {untl : Option Int}
    {dtstart : Int} {days : List Int} {n : Nat} {x : Int}
    (h : x ∈ (emitDays cap untl dtstart days n).1) : dtstart < x := by
  induction days generalizing n with
  | nil => simp [emitDays] at h
  | cons res rest ih =>
    simp only [emitDays] at h
    split at h
    · simp at h
    · split at h
      · split at h
        · split at h
          · simp at h
          · rcases List.mem_cons.mp h with rfl | h
            · assumption
            · exact ih h
        · rcases List.mem_cons.mp h with rfl | h
          · assumption
          · exact ih h
      · exact ih h

theorem emitDays_mem_le_untl {cap : Option Nat} {u dtstart : Int}
    {days : List Int} {n : Nat} {x : Int}
    (h : x ∈ (emitDays cap (some u) dtstart days n).1) : x ≤ u := by
  induction days generalizing n with
  | nil => simp [emitDays] at h
  | cons res rest ih =>
    simp only [emitDays] at h
    split at h
    · simp at h
    · next hstop =>
      have hres : res ≤ u := by
        by_contra hc
        exact hstop (by simpa using hc)
      split at h
      · split at h
        · split at h
          · simp at h
          · rcases List.mem_cons.mp h with rfl | h
            · exact hres
            · exact ih h
        · rcases List.mem_cons.mp h with rfl | h
          · exact hres
          · exact ih h
      · exact ih h

theorem emitDays_count {c : Nat} {untl : Option Int} {dtstart : Int}
    (days : List Int) (n : Nat) :
    (emitDays (some c) untl dtstart days n).2.1
      = n + (emitDays (some c) untl dtstart days n).1.length
    ∧ (n ≤ c → (emitDays (some c) untl dtstart days n).2.1 ≤ c) := by
  induction days generalizing n with
  | nil => simp [emitDays]
  | cons res rest ih =>
    simp only [emitDays]
    split
    · simp
    · split
      · split
        · simp
        · next hc =>
          obtain ⟨ih1, ih2⟩ := ih (n + 1)
          constructor
          · simp only [List.length_cons]
            omega
          · intro _
            exact ih2 (by omega)
      · exact ih n

/-! ### Weekly-loop lemmas -/

theorem runPeriodsW_le_untl {r : RRule} {cap : Option Nat} {u : Int}
    (hu : r.untl = some u) :
    ∀ fuel d n l, runPeriodsW r cap fuel d n = some l → ∀ x ∈ l, x ≤ u := by
  intro fuel
  induction fuel with
  | zero => intro d n l h; simp [runPeriodsW] at h
  | succ f ih =>
    intro d n l h
    simp only [runPeriodsW] at h
    rcases hE : emitDays cap r.untl (ordOf r.dtstart) (periodSel r (weeklyDays r d)) n
      with ⟨out, n2, st⟩
    rw [hE] at h
    have hout : ∀ x ∈ out, x ≤ u := by
      intro x hx
      have : x ∈ (emitDays cap r.untl (ordOf r.dtstart)
          (periodSel r (weeklyDays r d)) n).1 := by rw [hE]; exact hx
      rw [hu] at this
      exact emitDays_mem_le_untl this
    cases st
    · dsimp only at h
      split at h
      · cases h; exact hout
      · rcases hR : runPeriodsW r cap f (d - wd d + 7 * r.interval) n2 with _ | rest
        · rw [hR] at h; cases h
        · rw [hR] at h
          cases h
          intro x hx
          rcases List.mem_append.mp hx with hx | hx
          · exact hout x hx
          · exact ih _ _ _ hR x hx
    · dsimp only at h
      cases h
      exact hout

theorem runPeriodsW_gt_dtstart {r : RRule} {cap : Option Nat} :
    ∀ fuel d n l, runPeriodsW r cap fuel d n = some l →
      ∀ x ∈ l, ordOf r.dtstart < x := by
  intro fuel
  induction fuel with
  | zero => intro d n l h; simp [runPeriodsW] at h
  | succ f ih =>
    intro d n l h
    simp only [runPeriodsW] at h
    rcases hE : emitDays cap r.untl (ordOf r.dtstart) (periodSel r (weeklyDays r d)) n
      with ⟨out, n2, st⟩
    rw [hE] at h
    have hout : ∀ x ∈ out, ordOf r.dtstart < x := by
      intro x hx
      have : x ∈ (emitDays cap r.untl (ordOf r.dtstart)
          (periodSel r (weeklyDays r d)) n).1 := by rw [hE]; exact hx
      exact emitDays_mem_dtstart this
    cases st
    · dsimp only at h
      split at h
      · cases h; exact hout
      · rcases hR : runPeriodsW r cap f (d - wd d + 7 * r.interval) n2 with _ | rest
        · rw [hR] at h; cases h
        · rw [hR] at h
          cases h
          intro x hx
          rcases List.mem_append.mp hx with hx | hx
          · exact hout x hx
          · exact ih _ _ _ hR x hx
    · dsimp only at h
      cases h
      exact hout

theorem runPeriodsW_length {r : RRule} {c : Nat} :
    ∀ fuel d n l, runPeriodsW r (some c) fuel d n = some l → n ≤ c →
      l.length + n ≤ c := by
  intro fuel
  induction fuel with
  | zero => intro d n l h; simp [runPeriodsW] at h
  | succ f ih =>
    intro d n l h hn
    simp only [runPeriodsW] at h
    rcases hE : emitDays (some c) r.untl (ordOf r.dtstart)
        (periodSel r (weeklyDays r d)) n with ⟨out, n2, st⟩
    rw [hE] at h
    obtain ⟨hc1, hc2⟩ := @emitDays_count c r.untl (ordOf r.dtstart)
      (periodSel r (weeklyDays r d)) n
    rw [hE] at hc1 hc2
    dsimp only at hc1 hc2
    cases st
    · dsimp only at h
      split at h
      · cases h; omega
      · rcases hR : runPeriodsW r (some c) f (d - wd d + 7 * r.interval) n2 with _ | rest
        · rw [hR] at h; cases h
        · rw [hR] at h
          cases h
          have := ih _ _ _ hR (by omega)
          simp only [List.length_append]
          omega
    · dsimp only at h
      cases h
      omega

theorem runPeriodsW_sorted {r : RRule} {cap : Option Nat} (hi : 1 ≤ r.interval) :
    ∀ fuel d n l, runPeriodsW r cap fuel d n = some l →
      l.Pairwise (· < ·) ∧ ∀ x ∈ l, d ≤ x := by
  intro fuel
  induction fuel with
  | zero => intro d n l h; simp [runPeriodsW] at h
  | succ f ih =>
    intro d n l h
    simp only [runPeriodsW] at h
    rcases hE : emitDays cap r.untl (ordOf r.dtstart) (periodSel r (weeklyDays r d)) n
      with ⟨out, n2, st⟩
    rw [hE] at h
    have hsubP : ∀ x ∈ out, x ∈ periodSel r (weeklyDays r d) := by
      intro x hx
      exact (hE ▸ emitDays_sublist cap r.untl (ordOf r.dtstart)
        (periodSel r (weeklyDays r d)) n).subset hx
    have houtB : ∀ x ∈ out, d ≤ x ∧ x ≤ d + 6 - wd d := fun x hx =>
      weeklyDays_bounds (mem_periodSel (hsubP x hx))
    have houtS : out.Pairwise (· < ·) :=
      List.Pairwise.sublist
        (hE ▸ emitDays_sublist cap r.untl (ordOf r.dtstart)
          (periodSel r (weeklyDays r d)) n)
        (pairwise_periodSel (weeklyDays_pairwise r d))
    have hwl := wd_lt_seven d
    have hwn := wd_nonneg d
    cases st
    · dsimp only at h
      split at h
      · cases h; exact ⟨houtS, fun x hx => (houtB x hx).1⟩
      · rcases hR : runPeriodsW r cap f (d - wd d + 7 * r.interval) n2 with _ | rest
        · rw [hR] at h; cases h
        · rw [hR] at h
          cases h
          obtain ⟨hrS, hrB⟩ := ih _ _ _ hR
          constructor
          · rw [List.pairwise_append]
            refine ⟨houtS, hrS, ?_⟩
            intro a ha b hb
            have h1 := (houtB a ha).2
            have h2 := hrB b hb
            omega
          · intro x hx
            rcases List.mem_append.mp hx with hx | hx
            · exact (houtB x hx).1
            · have := hrB x hx
              omega
    · dsimp only at h
      cases h
      exact ⟨houtS, fun x hx => (houtB x hx).1⟩

theorem runPeriodsW_isSome {r : RRule} {cap : Option Nat} (hi : 1 ≤ r.interval) :
    ∀ fuel d n, (maxOrd + 1 - d).toNat < fuel →
      (runPeriodsW r cap fuel d n).isSome := by
  intro fuel
  induction fuel with
  | zero => intro d n h; omega
  | succ f ih =>
    intro d n h
    simp only [runPeriodsW]
    rcases hE : emitDays cap r.untl (ordOf r.dtstart) (periodSel r (weeklyDays r d)) n
      with ⟨out, n2, st⟩
    cases st
    · dsimp only
      split
      · simp
      · next hmax =>
        have hwl := wd_lt_seven d
        have hwn := wd_nonneg d
        have hfu : (maxOrd + 1 - (d - wd d + 7 * r.interval)).toNat < f := by omega
        have := ih (d - wd d + 7 * r.interval) n2 hfu
        rcases hR : runPeriodsW r cap f (d - wd d + 7 * r.interval) n2 with _ | rest
        · rw [hR] at this; simp at this
        · simp
    · simp

/-! ### Month-index arithmetic for the monthly loop

A normalized `(year, month)` pair is coded by its month index
`12 * year + month`; `monthStart` is the ordinal of that month's first day. -/

/-- Year of a month index. -/
def yOfIdx (i : Int) : Int := (i - 1) / 12

/-- Month (1..12) of a month index. -/
def mOfIdx (i : Int) : Int := (i - 1) % 12 + 1

/-- Ordinal of the first day of the month with index `i`. -/
def monthStart (i : Int) : Int := toOrd (yOfIdx i) (mOfIdx i) 1

theorem mOfIdx_bounds (i : Int) : 1 ≤ mOfIdx i ∧ mOfIdx i ≤ 12 := by
  unfold mOfIdx
  omega

theorem idx_split (y m : Int) (h1 : 1 ≤ m) (h2 : m ≤ 12) :
    yOfIdx (12 * y + m) = y ∧ mOfIdx (12 * y + m) = m := by
  unfold yOfIdx mOfIdx
  omega

theorem daysInMonth_pos (y m : Int) : 0 < daysInMonth y m := by
  unfold daysInMonth
  split
  · split <;> norm_num
  · split <;> norm_num

theorem dbm_add_dim (y m : Int) (h1 : 1 ≤ m) (h2 : m ≤ 11) :
    daysBeforeMonth y (m + 1) = daysBeforeMonth y m + daysInMonth y m := by
  interval_cases m <;> cases hL : isLeap y <;>
    simp [daysBeforeMonth, daysInMonth, hL]

theorem monthStart_succ (i : Int) :
    monthStart (i + 1) = monthStart i + daysInMonth (yOfIdx i) (mOfIdx i) := by
  have hmb := mOfIdx_bounds i
  have hid : 12 * yOfIdx i + mOfIdx i = i := by unfold yOfIdx mOfIdx; omega
  rcases le_or_lt (mOfIdx i) 11 with h11 | h12
  · -- next month is in the same year
    have h11a : (i - 1) % 12 + 1 ≤ 11 := h11
    have hy : yOfIdx (i + 1) = yOfIdx i ∧ mOfIdx (i + 1) = mOfIdx i + 1 := by
      unfold yOfIdx mOfIdx at hid ⊢
      omega
    unfold monthStart
    rw [hy.1, hy.2]
    unfold toOrd
    have := dbm_add_dim (yOfIdx i) (mOfIdx i) hmb.1 h11
    omega
  · -- December: roll over into January of the next year
    have hm12 : mOfIdx i = 12 := by omega
    have hm12a : (i - 1) % 12 + 1 = 12 := hm12
    have hy : yOfIdx (i + 1) = yOfIdx i + 1 ∧ mOfIdx (i + 1) = 1 := by
      unfold yOfIdx mOfIdx at hid ⊢
      omega
    unfold monthStart
    rw [hy.1, hy.2, hm12]
    have hd12 : daysInMonth (yOfIdx i) 12 = 31 := by norm_num [daysInMonth]
    have hb1 : daysBeforeMonth (yOfIdx i + 1) 1 = 0 := by norm_num [daysBeforeMonth]
    cases hL : isLeap (yOfIdx i)
    · have hb12 : daysBeforeMonth (yOfIdx i) 12 = 334 := by
        norm_num [daysBeforeMonth, hL]
      unfold toOrd
      rw [hb1, hb12, hd12]
      unfold isLeap at hL
      simp at hL
      omega
    · have hb12 : daysBeforeMonth (yOfIdx i) 12 = 335 := by
        norm_num [daysBeforeMonth, hL]
      unfold toOrd
      rw [hb1, hb12, hd12]
      unfold isLeap at hL
      simp at hL
      omega

theorem monthStart_le_add (i : Int) : ∀ k : Nat, monthStart i ≤ monthStart (i + k) := by
  intro k
  induction k with
  | zero => simp
  | succ k ih =>
    have h1 : i + (k + 1 : Nat) = (i + k) + 1 := by push_cast; ring
    rw [h1, monthStart_succ]
    have := daysInMonth_pos (yOfIdx (i + k)) (mOfIdx (i + k))
    omega

theorem monthStart_gap {i j : Int} (h : i < j) :
    monthStart i + daysInMonth (yOfIdx i) (mOfIdx i) ≤ monthStart j := by
  have hk : j = (i + 1) + ((j - (i + 1)).toNat : Int) := by omega
  have h2 := monthStart_le_add (i + 1) (j - (i + 1)).toNat
  rw [← hk] at h2
  rw [← monthStart_succ]
  exact h2

theorem monthStart_ym (y m : Int) (h1 : 1 ≤ m) (h2 : m ≤ 12) :
    monthStart (12 * y + m) = toOrd y m 1 := by
  unfold monthStart
  rw [(idx_split y m h1 h2).1, (idx_split y m h1 h2).2]

/-- The `divmod` month/year normalization of the `MONTHLY` branch preserves
the month index, keeps the month in 1..12, and leaves the year unchanged
when the month does not pass 12. -/
theorem monthAdvance_spec (y m interval : Int) (hm1 : 1 ≤ m) (hm2 : m ≤ 12)
    (hi : 1 ≤ interval) :
    12 * (monthAdvance y m interval).1 + (monthAdvance y m interval).2
        = 12 * y + m + interval
    ∧ 1 ≤ (monthAdvance y m interval).2
    ∧ (monthAdvance y m interval).2 ≤ 12
    ∧ (¬ 12 < m + interval → (monthAdvance y m interval).1 = y) := by
  by_cases h12 : 12 < m + interval
  · have hA : monthAdvance y m interval
        = (if (m + interval) % 12 == 0 then y + (m + interval) / 12 - 1
           else y + (m + interval) / 12,
           if (m + interval) % 12 == 0 then 12 else (m + interval) % 12) := by
      unfold monthAdvance
      rw [if_pos h12]
    rw [hA]
    cases h0 : ((m + interval) % 12 == 0) <;>
    · simp only [h0, Bool.false_eq_true, Bool.true_eq_false, ite_true, ite_false,
        if_true, if_false]
      simp only [beq_iff_eq, beq_eq_false_iff_ne, ne_eq] at h0
      norm_num
      omega
  · have hA : monthAdvance y m interval = (y, m + interval) := by
      unfold monthAdvance
      rw [if_neg h12]
    rw [hA]
    norm_num
    omega

/-! ### Monthly-loop lemmas -/

theorem runPeriodsM_le_untl {r : RRule} {cap : Option Nat} {u : Int}
    (hu : r.untl = some u) :
    ∀ fuel y m n l, runPeriodsM r cap fuel y m n = some l → ∀ x ∈ l, x ≤ u := by
  intro fuel
  induction fuel with
  | zero => intro y m n l h; simp [runPeriodsM] at h
  | succ f ih =>
    intro y m n l h
    simp only [runPeriodsM] at h
    rcases hE : emitDays cap r.untl (ordOf r.dtstart) (periodSel r (monthlyDays r y m)) n
      with ⟨out, n2, st⟩
    rw [hE] at h
    have hout : ∀ x ∈ out, x ≤ u := by
      intro x hx
      have : x ∈ (emitDays cap r.untl (ordOf r.dtstart)
          (periodSel r (monthlyDays r y m)) n).1 := by rw [hE]; exact hx
      rw [hu] at this
      exact emitDays_mem_le_untl this
    cases st
    · dsimp only at h
      split at h
      · cases h; exact hout
      · rcases hR : runPeriodsM r cap f (monthAdvance y m r.interval).1
            (monthAdvance y m r.interval).2 n2 with _ | rest
        · rw [hR] at h; cases h
        · rw [hR] at h
          cases h
          intro x hx
          rcases List.mem_append.mp hx with hx | hx
          · exact hout x hx
          · exact ih _ _ _ _ hR x hx
    · dsimp only at h
      cases h
      exact hout

theorem runPeriodsM_gt_dtstart {r : RRule} {cap : Option Nat} :
    ∀ fuel y m n l, runPeriodsM r cap fuel y m n = some l →
      ∀ x ∈ l, ordOf r.dtstart < x := by
  intro fuel
  induction fuel with
  | zero => intro y m n l h; simp [runPeriodsM] at h
  | succ f ih =>
    intro y m n l h
    simp only [runPeriodsM] at h
    rcases hE : emitDays cap r.untl (ordOf r.dtstart) (periodSel r (monthlyDays r y m)) n
      with ⟨out, n2, st⟩
    rw [hE] at h
    have hout : ∀ x ∈ out, ordOf r.dtstart < x := by
      intro x hx
      have : x ∈ (emitDays cap r.untl (ordOf r.dtstart)
          (periodSel r (monthlyDays r y m)) n).1 := by rw [hE]; exact hx
      exact emitDays_mem_dtstart this
    cases st
    · dsimp only at h
      split at h
      · cases h; exact hout
      · rcases hR : runPeriodsM r cap f (monthAdvance y m r.interval).1
            (monthAdvance y m r.interval).2 n2 with _ | rest
        · rw [hR] at h; cases h
        · rw [hR] at h
          cases h
          intro x hx
          rcases List.mem_append.mp hx with hx | hx
          · exact hout x hx
          · exact ih _ _ _ _ hR x hx
    · dsimp only at h
      cases h
      exact hout

theorem runPeriodsM_length {r : RRule} {c : Nat} :
    ∀ fuel y m n l, runPeriodsM r (some c) fuel y m n = some l → n ≤ c →
      l.length + n ≤ c := by
  intro fuel
  induction fuel with
  | zero => intro y m n l h; simp [runPeriodsM] at h
  | succ f ih =>
    intro y m n l h hn
    simp only [runPeriodsM] at h
    rcases hE : emitDays (some c) r.untl (ordOf r.dtstart)
        (periodSel r (monthlyDays r y m)) n with ⟨out, n2, st⟩
    rw [hE] at h
    obtain ⟨hc1, hc2⟩ := @emitDays_count c r.untl (ordOf r.dtstart)
      (periodSel r (monthlyDays r y m)) n
    rw [hE] at hc1 hc2
    dsimp only at hc1 hc2
    cases st
    · dsimp only at h
      split at h
      · cases h; omega
      · rcases hR : runPeriodsM r (some c) f (monthAdvance y m r.interval).1
            (monthAdvance y m r.interval).2 n2 with _ | rest
        · rw [hR] at h; cases h
        · rw [hR] at h
          cases h
          have := ih _ _ _ _ hR (by omega)
          simp only [List.length_append]
          omega
    · dsimp only at h
      cases h
      omega

theorem runPeriodsM_sorted {r : RRule} {cap : Option Nat} (hi : 1 ≤ r.interval) :
    ∀ fuel y m n l, 1 ≤ m → m ≤ 12 → runPeriodsM r cap fuel y m n = some l →
      l.Pairwise (· < ·) ∧ ∀ x ∈ l, monthStart (12 * y + m) ≤ x := by
  intro fuel
  induction fuel with
  | zero => intro y m n l _ _ h; simp [runPeriodsM] at h
  | succ f ih =>
    intro y m n l hm1 hm2 h
    simp only [runPeriodsM] at h
    rcases hE : emitDays cap r.untl (ordOf r.dtstart) (periodSel r (monthlyDays r y m)) n
      with ⟨out, n2, st⟩
    rw [hE] at h
    have hms := monthStart_ym y m hm1 hm2
    have hsubP : ∀ x ∈ out, x ∈ periodSel r (monthlyDays r y m) := by
      intro x hx
      exact (hE ▸ emitDays_sublist cap r.untl (ordOf r.dtstart)
        (periodSel r (monthlyDays r y m)) n).subset hx
    have houtB : ∀ x ∈ out,
        toOrd y m 1 ≤ x ∧ x ≤ toOrd y m 1 + daysInMonth y m - 1 := fun x hx =>
      monthlyDays_bounds (mem_periodSel (hsubP x hx))
    have houtS : out.Pairwise (· < ·) :=
      List.Pairwise.sublist
        (hE ▸ emitDays_sublist cap r.untl (ordOf r.dtstart)
          (periodSel r (monthlyDays r y m)) n)
        (pairwise_periodSel (monthlyDays_pairwise r y m))
    cases st
    · dsimp only at h
      split at h
      · cases h
        exact ⟨houtS, fun x hx => hms ▸ (houtB x hx).1⟩
      · rcases hR : runPeriodsM r cap f (monthAdvance y m r.interval).1
            (monthAdvance y m r.interval).2 n2 with _ | rest
        · rw [hR] at h; cases h
        · rw [hR] at h
          cases h
          obtain ⟨hadv, hm2a, hm2b, -⟩ := monthAdvance_spec y m r.interval hm1 hm2 hi
          obtain ⟨hrS, hrB⟩ := ih _ _ _ _ hm2a hm2b hR
          rw [hadv] at hrB
          have hgap : monthStart (12 * y + m) + daysInMonth y m
              ≤ monthStart (12 * y + m + r.interval) := by
            have h1 := @monthStart_gap (12 * y + m) (12 * y + m + r.interval)
              (by omega)
            have h2 := (idx_split y m hm1 hm2).1
            have h3 := (idx_split y m hm1 hm2).2
            rw [h2, h3] at h1
            exact h1
          constructor
          · rw [List.pairwise_append]
            refine ⟨houtS, hrS, ?_⟩
            intro a ha b hb
            have h1 := (houtB a ha).2
            have h2 := hrB b hb
            omega
          · intro x hx
            rcases List.mem_append.mp hx with hx | hx
            · exact hms ▸ (houtB x hx).1
            · have h2 := hrB x hx
              have h3 := daysInMonth_pos y m
              omega
    · dsimp only at h
      cases h
      exact ⟨houtS, fun x hx => hms ▸ (houtB x hx).1⟩

theorem runPeriodsM_isSome {r : RRule} {cap : Option Nat} (hi : 1 ≤ r.interval) :
    ∀ fuel y m n, 1 ≤ m → m ≤ 12 → y ≤ MAXYEAR →
      (12 * MAXYEAR + 12 + 1 - (12 * y + m)).toNat < fuel →
      (runPeriodsM r cap fuel y m n).isSome := by
  intro fuel
  induction fuel with
  | zero => intro y m n _ _ _ h; omega
  | succ f ih =>
    intro y m n hm1 hm2 hy h
    simp only [runPeriodsM]
    rcases hE : emitDays cap r.untl (ordOf r.dtstart) (periodSel r (monthlyDays r y m)) n
      with ⟨out, n2, st⟩
    cases st
    · dsimp only
      split
      · simp
      · next hstop =>
        obtain ⟨hadv, hm2a, hm2b, hsame⟩ := monthAdvance_spec y m r.interval hm1 hm2 hi
        have hy2 : (monthAdvance y m r.interval).1 ≤ MAXYEAR := by
          by_cases h12 : 12 < m + r.interval
          · by_contra hc
            exact hstop ⟨h12, by omega⟩
          · rw [hsame h12]; exact hy
        have hfu : (12 * MAXYEAR + 12 + 1
            - (12 * (monthAdvance y m r.interval).1 + (monthAdvance y m r.interval).2)).toNat
              < f := by
          omega
        have := ih (monthAdvance y m r.interval).1 (monthAdvance y m r.interval).2 n2
          hm2a hm2b hy2 hfu
        rcases hR : runPeriodsM r cap f (monthAdvance y m r.interval).1
            (monthAdvance y m r.interval).2 n2 with _ | rest
        · rw [hR] at this; simp at this
        · simp
    · simp

/-! ### Parser inversion lemmas -/

theorem parse_freq_weekly_or_monthly {s : String} {f : Nat}
    (h : parse_freq s = .ok f) : f = MONTHLY ∨ f = WEEKLY := by
  unfold parse_freq at h
  split at h
  · cases h; right; rfl
  · split at h
    · cases h; left; rfl
    · cases h

theorem parse_datetime_valid {s : String} {dt : Date}
    (h : parse_datetime s = .ok dt) :
    1 ≤ dt.y ∧ dt.y ≤ MAXYEAR ∧ 1 ≤ dt.m ∧ dt.m ≤ 12
    ∧ 1 ≤ dt.d ∧ dt.d ≤ daysInMonth dt.y dt.m := by
  unfold parse_datetime at h
  split at h
  · split at h
    · split at h
      · next hv =>
        cases h
        exact hv
      · cases h
    · cases h
  · cases h

theorem rruleCtor_fields {freq : Nat} {dtstart : Date} {interval : Int}
    {untl : Option Date} {bysetpos : BySetPosArg} {bymonthday byweekday : Option (List Int)}
    {r : RRule}
    (h : rruleCtor freq dtstart interval untl bysetpos bymonthday byweekday = .ok r) :
    r.freq = freq ∧ r.dtstart = dtstart ∧ r.interval = interval ∧ r.count = none
    ∧ r.untl = untl.map ordOf := by
  unfold rruleCtor at h
  split at h
  · cases h
  · cases h
    exact ⟨rfl, rfl, rfl, rfl, rfl⟩

theorem buildMonthly_fields {body : Body} {start : Date} {interval : Int}
    {untl : Option Date} {mt : MonthTypeValues} {r : RRule}
    (h : buildMonthly body start interval untl mt = .ok r) :
    r.freq = MONTHLY ∧ r.dtstart = start ∧ r.interval = interval ∧ r.count = none
    ∧ r.untl = untl.map ordOf := by
  cases mt <;> simp only [buildMonthly] at h
  case days_of_week =>
    split at h
    · cases h
    · split at h
      · cases h
      · exact rruleCtor_fields h
  case days_of_month =>
    split at h
    · cases h
    · exact rruleCtor_fields h
  case first_weekday => exact rruleCtor_fields h
  case last_weekday => exact rruleCtor_fields h

theorem buildRule_fields {body : Body} {freq : Nat} {start : Date} {interval : Int}
    {untl : Option Date} {r : RRule}
    (h : buildRule body freq start interval untl = .ok r) :
    (r.freq = WEEKLY ∨ r.freq = MONTHLY) ∧ r.dtstart = start ∧ r.interval = interval
    ∧ r.count = none ∧ r.untl = untl.map ordOf := by
  unfold buildRule at h
  split at h
  · next hf =>
    split at h
    · cases h
    · have := rruleCtor_fields h
      exact ⟨Or.inl this.1, this.2.1, this.2.2.1, this.2.2.2.1, this.2.2.2.2⟩
  · split at h
    · next hf =>
      split at h
      · cases h
      · split at h
        · cases h
        · have := buildMonthly_fields h
          exact ⟨Or.inr this.1, this.2.1, this.2.2.1, this.2.2.2.1, this.2.2.2.2⟩
    · cases h

/-- Full inversion of the sequential part of `parse_rrule`: a successful
parse determines successfully parsed `freq`, `start`, `interval`, `until`
pieces feeding `buildRule`. -/
theorem parse_rrule_inv {body : Body} {r : RRule}
    (h : parse_rrule body = .ok r) :
    ∃ raw_freq raw_start freq start interval untl,
      body.freq = some raw_freq ∧ body.start = some raw_start
      ∧ parse_freq raw_freq = .ok freq ∧ parse_datetime raw_start = .ok start
      ∧ pyInt (body.interval.getD (JVal.jint 1)) = .ok interval
      ∧ ((body.untl = none ∧ untl = none)
         ∨ (∃ raw_until u, body.untl = some raw_until
              ∧ parse_datetime raw_until = .ok u ∧ untl = some u))
      ∧ buildRule body freq start interval untl = .ok r := by
  unfold parse_rrule at h
  split at h
  · cases h
  · next raw_freq hfq =>
    split at h
    · cases h
    · next raw_start hst =>
      split at h
      · cases h
      · next freq hfr =>
        split at h
        · cases h
        · next start hdt =>
          split at h
          · cases h
          · next interval hint =>
            split at h
            · next hun =>
              exact ⟨raw_freq, raw_start, freq, start, interval, none,
                hfq, hst, hfr, hdt, hint, Or.inl ⟨hun, rfl⟩, h⟩
            · next raw_until hun =>
              split at h
              · cases h
              · next u hu =>
                exact ⟨raw_freq, raw_start, freq, start, interval, some u,
                  hfq, hst, hfr, hdt, hint, Or.inr ⟨raw_until, u, hun, hu, rfl⟩, h⟩

/-! ### The tail-recursive loops equal the compositional ones -/

theorem runPeriodsWAux_eq (r : RRule) (cap : Option Nat) :
    ∀ fuel d n acc, runPeriodsWAux r cap fuel d n acc
      = (runPeriodsW r cap fuel d n).map (fun l => acc.reverse ++ l) := by
  intro fuel
  induction fuel with
  | zero => intro d n acc; rfl
  | succ f ih =>
    intro d n acc
    simp only [runPeriodsWAux, runPeriodsW]
    rcases hE : emitDays cap r.untl (ordOf r.dtstart) (periodSel r (weeklyDays r d)) n
      with ⟨out, n2, st⟩
    cases st
    · dsimp only
      by_cases hmax : maxOrd < d - wd d + 7 * r.interval
      · simp [hmax, List.reverseAux_eq]
      · simp only [hmax, if_false, ite_false]
        rw [ih]
        rcases runPeriodsW r cap f (d - wd d + 7 * r.interval) n2 with _ | rest
        · rfl
        · simp [List.reverseAux_eq]
    · dsimp only
      simp [List.reverseAux_eq]

theorem runPeriodsMAux_eq (r : RRule) (cap : Option Nat) :
    ∀ fuel y m n acc, runPeriodsMAux r cap fuel y m n acc
      = (runPeriodsM r cap fuel y m n).map (fun l => acc.reverse ++ l) := by
  intro fuel
  induction fuel with
  | zero => intro y m n acc; rfl
  | succ f ih =>
    intro y m n acc
    simp only [runPeriodsMAux, runPeriodsM]
    rcases hE : emitDays cap r.untl (ordOf r.dtstart) (periodSel r (monthlyDays r y m)) n
      with ⟨out, n2, st⟩
    cases st
    · dsimp only
      by_cases hmax : 12 < m + r.interval ∧ MAXYEAR < (monthAdvance y m r.interval).1
      · simp [hmax, List.reverseAux_eq]
      · simp only [hmax, if_false, ite_false]
        rw [ih]
        rcases runPeriodsM r cap f (monthAdvance y m r.interval).1
            (monthAdvance y m r.interval).2 n2 with _ | rest
        · rfl
        · simp [List.reverseAux_eq]
    · dsimp only
      simp [List.reverseAux_eq]

/-- `next_instances` through the compositional loops. -/
theorem next_instances_eq (r : RRule) (fuel : Nat) :
    next_instances r fuel
      = (if r.freq == WEEKLY then
           runPeriodsW r (xafterCount r) fuel (ordOf r.dtstart) 0
         else if r.freq == MONTHLY then
           runPeriodsM r (xafterCount r) fuel r.dtstart.y r.dtstart.m 0
         else none) := by
  by_cases h1 : (r.freq == WEEKLY) = true
  · simp only [next_instances, h1, if_true, ite_true]
    rw [runPeriodsWAux_eq]
    rcases runPeriodsW r (xafterCount r) fuel (ordOf r.dtstart) 0 with _ | l
    · rfl
    · simp
  · by_cases h2 : (r.freq == MONTHLY) = true
    · simp only [next_instances, h1, h2, if_true, ite_true, if_false, ite_false,
        Bool.false_eq_true]
      rw [runPeriodsMAux_eq]
      rcases runPeriodsM r (xafterCount r) fuel r.dtstart.y r.dtstart.m 0 with _ | l
      · rfl
      · simp
    · simp only [next_instances, h1, h2, if_false, ite_false, Bool.false_eq_true]

/-! ### Facts about parsed rules and `next_instances` -/

theorem parse_fields {body : Body} {r : RRule} (hp : parse_rrule body = .ok r) :
    (r.freq = WEEKLY ∨ r.freq = MONTHLY) ∧ r.count = none
    ∧ (1 ≤ r.dtstart.y ∧ r.dtstart.y ≤ MAXYEAR ∧ 1 ≤ r.dtstart.m ∧ r.dtstart.m ≤ 12)
    ∧ (body.untl = none → r.untl = none)
    ∧ (∀ s, body.untl = some s → ∃ u, parse_datetime s = .ok u ∧ r.untl = some (ordOf u))
    ∧ pyInt (body.interval.getD (JVal.jint 1)) = .ok r.interval := by
  obtain ⟨rf, rs, f, st, iv, un, hfq, hst, hfr, hdt, hint, hun, hbr⟩ := parse_rrule_inv hp
  obtain ⟨hf1, hf2, hf3, hf4, hf5⟩ := buildRule_fields hbr
  have hdv := parse_datetime_valid hdt
  rw [← hf2] at hdv
  refine ⟨hf1, hf4, ⟨hdv.1, hdv.2.1, hdv.2.2.1, hdv.2.2.2.1⟩, ?_, ?_, ?_⟩
  · intro hu
    rcases hun with ⟨-, rfl⟩ | ⟨ru, u, hru, -, -⟩
    · simpa using hf5
    · rw [hu] at hru; cases hru
  · intro s hu
    rcases hun with ⟨hn, -⟩ | ⟨ru, u, hru, hpu, rfl⟩
    · rw [hu] at hn; cases hn
    · rw [hu] at hru
      cases hru
      exact ⟨u, hpu, by simpa using hf5⟩
  · rw [hf3]; exact hint

theorem xafterCount_of_none {r : RRule} (h1 : r.untl = none) (h2 : r.count = none) :
    xafterCount r = some MAX_COUNT := by
  simp [xafterCount, is_finite, h1, h2]

theorem xafterCount_of_untl {r : RRule} {u : Int} (h1 : r.untl = some u) :
    xafterCount r = none := by
  simp [xafterCount, is_finite, h1]

theorem next_instances_length {r : RRule} (hcap : xafterCount r = some MAX_COUNT) :
    ∀ fuel l, next_instances r fuel = some l → l.length ≤ MAX_COUNT := by
  intro fuel l h
  rw [next_instances_eq] at h
  split at h
  · rw [hcap] at h
    have := runPeriodsW_length fuel (ordOf r.dtstart) 0 l h (Nat.zero_le _)
    omega
  · split at h
    · rw [hcap] at h
      have := runPeriodsM_length fuel r.dtstart.y r.dtstart.m 0 l h (Nat.zero_le _)
      omega
    · cases h

theorem next_instances_le_untl {r : RRule} {u : Int} (hu : r.untl = some u) :
    ∀ fuel l, next_instances r fuel = some l → ∀ x ∈ l, x ≤ u := by
  intro fuel l h
  rw [next_instances_eq] at h
  split at h
  · exact runPeriodsW_le_untl hu fuel _ _ _ h
  · split at h
    · exact runPeriodsM_le_untl hu fuel _ _ _ _ h
    · cases h

theorem next_instances_gt_dtstart {r : RRule} :
    ∀ fuel l, next_instances r fuel = some l → ∀ x ∈ l, ordOf r.dtstart < x := by
  intro fuel l h
  rw [next_instances_eq] at h
  split at h
  · exact runPeriodsW_gt_dtstart fuel _ _ _ h
  · split at h
    · exact runPeriodsM_gt_dtstart fuel _ _ _ _ h
    · cases h

theorem next_instances_sorted {r : RRule} (hi : 1 ≤ r.interval)
    (hm1 : 1 ≤ r.dtstart.m) (hm2 : r.dtstart.m ≤ 12) :
    ∀ fuel l, next_instances r fuel = some l → l.Pairwise (· < ·) := by
  intro fuel l h
  rw [next_instances_eq] at h
  split at h
  · exact (runPeriodsW_sorted hi fuel _ _ _ h).1
  · split at h
    · exact (runPeriodsM_sorted hi fuel _ _ _ _ hm1 hm2 h).1
    · cases h

theorem next_instances_terminates {r : RRule} (hi : 1 ≤ r.interval)
    (hf : r.freq = WEEKLY ∨ r.freq = MONTHLY)
    (hy : r.dtstart.y ≤ MAXYEAR) (hm1 : 1 ≤ r.dtstart.m) (hm2 : r.dtstart.m ≤ 12) :
    ∃ fuel l, next_instances r fuel = some l := by
  rcases hf with hf | hf
  · refine ⟨(maxOrd + 1 - ordOf r.dtstart).toNat + 1, ?_⟩
    have hs := @runPeriodsW_isSome r (xafterCount r) hi
      ((maxOrd + 1 - ordOf r.dtstart).toNat + 1) (ordOf r.dtstart) 0 (by omega)
    rw [next_instances_eq, hf]
    simp only [beq_self_eq_true, if_true]
    exact Option.isSome_iff_exists.mp hs
  · refine ⟨(12 * MAXYEAR + 12 + 1 - (12 * r.dtstart.y + r.dtstart.m)).toNat + 1, ?_⟩
    have hs := @runPeriodsM_isSome r (xafterCount r) hi
      ((12 * MAXYEAR + 12 + 1 - (12 * r.dtstart.y + r.dtstart.m)).toNat + 1)
      r.dtstart.y r.dtstart.m 0 hm1 hm2 hy (by omega)
    rw [next_instances_eq, hf]
    simp only [beq_self_eq_true, if_true]
    norm_num
    exact Option.isSome_iff_exists.mp hs

/-! ### Concrete request bodies and their parsed rules -/

set_option maxRecDepth 100000
set_option maxHeartbeats 4000000

/-- `{freq:"weeks", start:"2024-01-01", interval:1, week_days:["monday","wednesday"]}`. -/
def bodyMonWed : Body :=
  { freq := some "weeks", start := some "2024-01-01", interval := some (.jint 1),
    week_days := ["monday", "wednesday"] }

/-- The rule `parse_rrule` builds from `bodyMonWed`. -/
def ruleMonWed : RRule :=
  { freq := 2, dtstart := ⟨2024, 1, 1⟩, interval := 1, count := none, untl := none,
    byweekday := some [0, 2], bymonthday := [], bynmonthday := [], bysetpos := [] }

theorem parse_bodyMonWed : parse_rrule bodyMonWed = .ok ruleMonWed := by rfl

/-- `{freq:"months", start:"2024-01-01", month_type:"days of week",
month_nth_days:["last"], week_days:["friday"]}` (the C8 scenario). -/
def bodyLastFri : Body :=
  { freq := some "months", start := some "2024-01-01",
    month_type := some "days of week", month_nth_days := ["last"],
    week_days := ["friday"] }

/-- The rule `parse_rrule` builds from `bodyLastFri`. -/
def ruleLastFri : RRule :=
  { freq := 1, dtstart := ⟨2024, 1, 1⟩, interval := 1, count := none, untl := none,
    byweekday := some [4], bymonthday := [], bynmonthday := [], bysetpos := [-1] }

theorem parse_bodyLastFri : parse_rrule bodyLastFri = .ok ruleLastFri := by rfl

/-- `{freq:"weeks", start:"2024-01-03"}`: a weekly rule with `week_days`
absent; 2024-01-03 is a Wednesday. -/
def bodyEmptyWd : Body := { freq := some "weeks", start := some "2024-01-03" }

/-- The rule `parse_rrule` builds from `bodyEmptyWd`: note
`byweekday = none` with no weekday defaulting from the start date. -/
def ruleEmptyWd : RRule :=
  { freq := 2, dtstart := ⟨2024, 1, 3⟩, interval := 1, count := none, untl := none,
    byweekday := none, bymonthday := [], bynmonthday := [], bysetpos := [] }

theorem parse_bodyEmptyWd : parse_rrule bodyEmptyWd = .ok ruleEmptyWd := by rfl

/-- `{freq:"weeks", start:"2024-01-01", interval:0, until:"2024-12-31",
week_days:["tuesday"]}`: parseable, but generation never terminates. -/
def bodyDiv : Body :=
  { freq := some "weeks", start := some "2024-01-01", interval := some (.jint 0),
    untl := some "2024-12-31", week_days := ["tuesday"] }

/-- The rule `parse_rrule` builds from `bodyDiv`: `interval = 0`. -/
def ruleDiv : RRule :=
  { freq := 2, dtstart := ⟨2024, 1, 1⟩, interval := 0, count := none,
    untl := some 739251, byweekday := some [1], bymonthday := [], bynmonthday := [],
    bysetpos := [] }

theorem parse_bodyDiv : parse_rrule bodyDiv = .ok ruleDiv := by rfl

/-- `{freq:"weeks", start:"2024-01-01", until:"2027-01-05"}`: with no
weekday restriction every day is emitted, 1100 in all — more than
`MAX_COUNT`, since no cap applies when `until` is present. -/
def bodyBig : Body :=
  { freq := some "weeks", start := some "2024-01-01", untl := some "2027-01-05" }

/-- The rule `parse_rrule` builds from `bodyBig`. -/
def ruleBig : RRule :=
  { freq := 2, dtstart := ⟨2024, 1, 1⟩, interval := 1, count := none,
    untl := some 739986, byweekday := none, bymonthday := [], bynmonthday := [],
    bysetpos := [] }

theorem parse_bodyBig : parse_rrule bodyBig = .ok ruleBig := by rfl

/-- `{freq:"weeks", start:"2024-01-01", interval:0}`. -/
def bodyI0 : Body :=
  { freq := some "weeks", start := some "2024-01-01", interval := some (.jint 0) }

/-- The rule `parse_rrule` builds from `bodyI0`: `interval = 0` is accepted. -/
def ruleI0 : RRule :=
  { freq := 2, dtstart := ⟨2024, 1, 1⟩, interval := 0, count := none, untl := none,
    byweekday := none, bymonthday := [], bynmonthday := [], bysetpos := [] }

theorem parse_bodyI0 : parse_rrule bodyI0 = .ok ruleI0 := by rfl

/-- `{freq:"days", start:"2024-01-01"}` (the C4 scenario). -/
def bodyDays : Body := { freq := some "days", start := some "2024-01-01" }

/-- `{freq:"months", start:"2024-01-01"}` — monthly without `month_type`. -/
def bodyMonthNoType : Body := { freq := some "months", start := some "2024-01-01" }

/-- `{freq:"months", start:"2024-01-01", month_type:"days of month"}` —
`month_days` absent. -/
def bodyDOMNoDays : Body :=
  { freq := some "months", start := some "2024-01-01",
    month_type := some "days of month" }

/-- `{freq:"months", start:"2024-01-01", month_type:"days of week"}` —
`month_nth_days` and `week_days` absent. -/
def bodyDOWNoFields : Body :=
  { freq := some "months", start := some "2024-01-01",
    month_type := some "days of week" }

/-! ### The claims -/

/-- C1: for every rule parsed from an input without an `until` field (and
parsed rules never carry a `count`), `next_instances` passes
`count = MAX_COUNT = 1000` to `xafter` — exactly the no-explicit-termination
case of `is_finite` — and therefore the generated sequence holds at most
1000 dates. -/
theorem c1_cap_without_until (body : Body) (r : RRule)
    (hp : parse_rrule body = .ok r) (hu : body.untl = none) :
    xafterCount r = some MAX_COUNT
    ∧ ∀ fuel l, next_instances r fuel = some l → l.length ≤ MAX_COUNT := by
  obtain ⟨-, hcount, -, huntl, -, -⟩ := parse_fields hp
  have hcap := xafterCount_of_none (huntl hu) hcount
  exact ⟨hcap, next_instances_length hcap⟩

/-- Witness for C1 at the parsed `bodyMonWed`. -/
theorem c1_cap_without_until_witness :
    (parse_rrule bodyMonWed = .ok ruleMonWed ∧ bodyMonWed.untl = none)
    ∧ (xafterCount ruleMonWed = some MAX_COUNT
       ∧ ∀ fuel l, next_instances ruleMonWed fuel = some l →
          l.length ≤ MAX_COUNT) :=
  ⟨⟨parse_bodyMonWed, rfl⟩,
   c1_cap_without_until bodyMonWed ruleMonWed parse_bodyMonWed rfl⟩

/-- C3 (with the spec's RecurrenceRule validity invariant `interval ≥ 1`
made explicit): the generated sequence is strictly ascending — hence
duplicate-free — every emitted date is strictly after the start date, and
in particular so is the first one. -/
theorem c3_sorted_after_start (body : Body) (r : RRule)
    (hp : parse_rrule body = .ok r) (hi : 1 ≤ r.interval) :
    ∀ fuel l, next_instances r fuel = some l →
      l.Pairwise (· < ·)
      ∧ (∀ x ∈ l, ordOf r.dtstart < x)
      ∧ (∀ x, l.head? = some x → ordOf r.dtstart < x) := by
  obtain ⟨-, -, hval, -, -, -⟩ := parse_fields hp
  intro fuel l h
  refine ⟨next_instances_sorted hi hval.2.2.1 hval.2.2.2 fuel l h,
    next_instances_gt_dtstart fuel l h, ?_⟩
  intro x hx
  exact next_instances_gt_dtstart fuel l h x (List.mem_of_mem_head? hx)

/-- Witness for C3 at the parsed `bodyMonWed`. -/
theorem c3_sorted_after_start_witness :
    (parse_rrule bodyMonWed = .ok ruleMonWed ∧ 1 ≤ ruleMonWed.interval)
    ∧ ∀ fuel l, next_instances ruleMonWed fuel = some l →
        l.Pairwise (· < ·)
        ∧ (∀ x ∈ l, ordOf ruleMonWed.dtstart < x)
        ∧ (∀ x, l.head? = some x → ordOf ruleMonWed.dtstart < x) :=
  ⟨⟨parse_bodyMonWed, by decide⟩,
   c3_sorted_after_start bodyMonWed ruleMonWed parse_bodyMonWed (by decide)⟩

/-- C4 counterexample: `{freq:"days", start:"2024-01-01"}` is rejected with
the same `Unknown freq` validation error used for malformed tokens, not
with the (distinct, unreachable) `Frequency not implemented` message. -/
theorem c4_counterexample :
    parse_rrule bodyDays = .error "Unknown freq: \"days\""
    ∧ "Unknown freq: \"days\"" ≠ "Frequency not implemented: \"\x7bfreq\x7d\"" :=
  ⟨rfl, by decide⟩

/-- C4 as amended: any `freq` token outside `{"weeks","months"}` — e.g.
`"days"` — fails with the `Unknown freq` validation error raised by
`parse_freq`; `parse_freq` only ever returns `WEEKLY` or `MONTHLY`, so the
`Frequency not implemented` branch of `parse_rrule` is unreachable. -/
theorem c4_unknown_freq :
    (∀ (body : Body) (s t : String), body.freq = some s → body.start = some t →
       s ≠ "weeks" → s ≠ "months" →
       parse_rrule body = .error ("Unknown freq: \"" ++ s ++ "\""))
    ∧ (∀ s f, parse_freq s = .ok f → f = MONTHLY ∨ f = WEEKLY) := by
  constructor
  · intro body s t hf hs hw hm
    have h1 : parse_freq s = .error ("Unknown freq: \"" ++ s ++ "\"") := by
      unfold parse_freq
      rw [if_neg (by simp [hw]), if_neg (by simp [hm])]
    unfold parse_rrule
    rw [hf, hs]
    dsimp only
    rw [h1]
  · intro s f h
    exact parse_freq_weekly_or_monthly h

/-- Witness for C4's amended statement at `bodyDays`. -/
theorem c4_unknown_freq_witness :
    parse_rrule bodyDays = .error "Unknown freq: \"days\"" :=
  c4_unknown_freq.1 bodyDays "days" "2024-01-01" rfl rfl (by decide) (by decide)

/-- C5 counterexample: `interval = 0` is accepted by `parse_rrule` — the
constructed rule has `interval = 0`, not `≥ 1`. -/
theorem c5_counterexample :
    parse_rrule bodyI0 = .ok ruleI0 ∧ ruleI0.interval = 0
    ∧ ¬ 1 ≤ ruleI0.interval :=
  ⟨parse_bodyI0, rfl, by decide⟩

/-- C5 as amended: `interval` defaults to 1 when absent; when present it is
converted with `int()` and a conversion failure makes the whole parse fail;
but the converted value is stored unchecked, so zero and negative integers
are accepted as-is (no clamping, no positivity validation). -/
theorem c5_interval_rules :
    (∀ body r, parse_rrule body = .ok r → body.interval = none → r.interval = 1)
    ∧ (∀ body r n, parse_rrule body = .ok r →
        body.interval = some (JVal.jint n) → r.interval = n)
    ∧ (∀ body v e, body.interval = some v → pyInt v = .error e →
        (parse_rrule body).isOk = false) := by
  refine ⟨?_, ?_, ?_⟩
  · intro body r hp hnone
    have hint := (parse_fields hp).2.2.2.2.2
    rw [hnone] at hint
    simp only [Option.getD_none, pyInt] at hint
    exact (Except.ok.inj hint).symm
  · intro body r n hp hsome
    have hint := (parse_fields hp).2.2.2.2.2
    rw [hsome] at hint
    simp only [Option.getD_some, pyInt] at hint
    exact (Except.ok.inj hint).symm
  · intro body v e hv he
    rcases hP : parse_rrule body with e2 | r
    · rfl
    · have hint := (parse_fields hP).2.2.2.2.2
      rw [hv] at hint
      simp only [Option.getD_some] at hint
      rw [he] at hint
      cases hint

/-- C7 counterexample: a monthly input with `month_type:"days of month"`
and no `month_days` parses successfully — the field is not required. -/
theorem c7_counterexample : (parse_rrule bodyDOMNoDays).isOk = true := by rfl

/-- C7 as amended: for monthly inputs `parse_rrule` requires only
`month_type` (failing with `Missing required: month_type` when absent); the
per-month_type fields are not validated for presence: absent `month_days`
(for "days of month") or absent `month_nth_days`/`week_days` (for "days of
week") default to empty lists and the parse succeeds. -/
theorem c7_month_type_only_required :
    parse_rrule bodyMonthNoType = .error "Missing required: month_type"
    ∧ (parse_rrule bodyDOMNoDays).isOk = true
    ∧ (parse_rrule bodyDOWNoFields).isOk = true :=
  ⟨by rfl, by rfl, by rfl⟩

/-- C10: `month_type` is matched case-insensitively (`"FIRST WEEKDAY"` and
`"first weekday"` both parse, to the same variant), while `freq` is matched
case-sensitively (`"WEEKS"` is rejected, `"weeks"` accepted). -/
theorem c10_case_sensitivity :
    parse_month_type "FIRST WEEKDAY" = .ok .first_weekday
    ∧ parse_month_type "first weekday" = .ok .first_weekday
    ∧ parse_freq "WEEKS" = .error "Unknown freq: \"WEEKS\""
    ∧ parse_freq "weeks" = .ok WEEKLY :=
  ⟨by rfl, by rfl, by rfl, by rfl⟩

/-! ### Prefix observation helpers: the dates accumulated after the first
periods of a run are a prefix of any completed run's output, so the first
instances can be read off after unfolding just those periods. -/

theorem runPeriodsWAux_prefix {r : RRule} {cap : Option Nat} {fuel : Nat}
    {d : Int} {n : Nat} {acc l : List Int}
    (h : runPeriodsWAux r cap fuel d n acc = some l) :
    ∃ t, l = acc.reverse ++ t := by
  rw [runPeriodsWAux_eq] at h
  rcases hE : runPeriodsW r cap fuel d n with _ | t
  · rw [hE] at h
    exact Option.noConfusion h
  · rw [hE] at h
    simp only [Option.map_some'] at h
    exact ⟨t, (Option.some.inj h).symm⟩

theorem runPeriodsMAux_prefix {r : RRule} {cap : Option Nat} {fuel : Nat}
    {y m : Int} {n : Nat} {acc l : List Int}
    (h : runPeriodsMAux r cap fuel y m n acc = some l) :
    ∃ t, l = acc.reverse ++ t := by
  rw [runPeriodsMAux_eq] at h
  rcases hE : runPeriodsM r cap fuel y m n with _ | t
  · rw [hE] at h
    exact Option.noConfusion h
  · rw [hE] at h
    simp only [Option.map_some'] at h
    exact ⟨t, (Option.some.inj h).symm⟩

/-! ### C2: rules with `until` -/

/-- One loop step of the weekly generator for `ruleDiv`: the period is the
week of 2024-01-01, it emits Tuesday 2024-01-02 (ordinal 738887, within the
`until` bound), and `interval = 0` makes the next period start at the very
same day. -/
theorem ruleDiv_step (f : Nat) (n : Nat) (acc : List Int) :
    runPeriodsWAux ruleDiv none (f + 1) 738886 n acc
      = runPeriodsWAux ruleDiv none f 738886 n (738887 :: acc) := by rfl

/-- The `ruleDiv` loop never reaches a stop condition: whatever the fuel,
the run is unfinished. -/
theorem ruleDiv_loops :
    ∀ fuel n acc, runPeriodsWAux ruleDiv none fuel 738886 n acc = none := by
  intro fuel
  induction fuel with
  | zero => intro n acc; rfl
  | succ f ih =>
    intro n acc
    rw [ruleDiv_step, ih]

theorem ruleDiv_ni (fuel : Nat) :
    next_instances ruleDiv fuel = runPeriodsWAux ruleDiv none fuel 738886 0 [] := by rfl

/-- C2 counterexample: `{freq:"weeks", start:"2024-01-01", interval:0,
until:"2024-12-31", week_days:["tuesday"]}` parses, yet its generation
never terminates (it yields 2024-01-02 forever), so a rule parsed from an
input with `until` need not have a finite generated sequence. -/
theorem c2_counterexample :
    parse_rrule bodyDiv = .ok ruleDiv ∧ bodyDiv.untl = some "2024-12-31"
    ∧ ∀ fuel, next_instances ruleDiv fuel = none := by
  refine ⟨parse_bodyDiv, rfl, ?_⟩
  intro fuel
  rw [ruleDiv_ni, ruleDiv_loops]

/-- The 1100 dates `ruleBig` generates (2024-01-02 .. 2027-01-05). -/
def listBig : List Int := (next_instances ruleBig 200).getD []

theorem listBig_spec : next_instances ruleBig 200 = some listBig := by decide

theorem listBig_long : MAX_COUNT < listBig.length := by decide

/-- C2 as amended (restricted to positive `interval`, as the spec's
RecurrenceRule invariant requires and `c2_counterexample` forces): for a
rule parsed from an input with an `until` date, `xafter` gets `count=None`
(no 1000-cap), generation terminates, every emitted date is `≤ until` —
and, the cap being absent, a rule whose `until` admits more than 1000
dates emits them all (`ruleBig` emits 1100). -/
theorem c2_until_bounded (body : Body) (r : RRule) (s : String)
    (hp : parse_rrule body = .ok r) (hu : body.untl = some s)
    (hi : 1 ≤ r.interval) :
    xafterCount r = none
    ∧ (∃ fuel l, next_instances r fuel = some l)
    ∧ (∀ u, r.untl = some u →
        ∀ fuel l, next_instances r fuel = some l → ∀ x ∈ l, x ≤ u)
    ∧ (∃ fuel l, next_instances ruleBig fuel = some l ∧ MAX_COUNT < l.length) := by
  obtain ⟨hfreq, -, hval, -, hus, -⟩ := parse_fields hp
  obtain ⟨u, -, hru⟩ := hus s hu
  refine ⟨xafterCount_of_untl hru,
    next_instances_terminates hi hfreq hval.2.1 hval.2.2.1 hval.2.2.2,
    ?_, 200, listBig, listBig_spec, listBig_long⟩
  intro u' hu' fuel l h
  exact next_instances_le_untl hu' fuel l h

/-- Witness for C2's amended statement at the parsed `bodyBig`. -/
theorem c2_until_bounded_witness :
    (parse_rrule bodyBig = .ok ruleBig ∧ bodyBig.untl = some "2027-01-05"
     ∧ 1 ≤ ruleBig.interval)
    ∧ (xafterCount ruleBig = none
       ∧ (∃ fuel l, next_instances ruleBig fuel = some l)
       ∧ (∀ u, ruleBig.untl = some u →
           ∀ fuel l, next_instances ruleBig fuel = some l → ∀ x ∈ l, x ≤ u)
       ∧ (∃ fuel l, next_instances ruleBig fuel = some l ∧ MAX_COUNT < l.length)) :=
  ⟨⟨parse_bodyBig, rfl, by decide⟩,
   c2_until_bounded bodyBig ruleBig "2027-01-05" parse_bodyBig rfl (by decide)⟩

/-! ### C6: weekly rules with an empty weekday list -/

/-- The `rrule` constructor applied the way the weekly branch of
`parse_rrule` applies it for an empty `week_days`: because `byweekday` is
an (empty) list rather than `None`, the dtstart-weekday default is *not*
applied, and the empty set normalizes to `_byweekday = None`. -/
theorem rruleCtor_weekly_empty (st : Date) (iv : Int) (un : Option Date) :
    rruleCtor WEEKLY st iv un .noPos none (some []) =
      .ok { freq := WEEKLY, dtstart := st, interval := iv, count := none,
            untl := un.map ordOf, byweekday := none, bymonthday := [],
            bynmonthday := [], bysetpos := [] } := by rfl

/-- One step of `ruleEmptyWd`'s weekly loop: the first period (Wednesday
2024-01-03 up to Sunday 2024-01-07) emits January 4–7 (ordinals
738889–738892; the start itself is excluded by `xafter`'s strict
comparison), and the loop moves to Monday 2024-01-08 (ordinal 738893)
having produced 4 dates. -/
theorem emptyWd_peel (f : Nat) :
    next_instances ruleEmptyWd (f + 1)
      = runPeriodsWAux ruleEmptyWd (xafterCount ruleEmptyWd) f
          738893 4 [738892, 738891, 738890, 738889] := by rfl

/-- C6 counterexample: for `{freq:"weeks", start:"2024-01-03"}` (a
Wednesday start, `week_days` absent) the first two generated dates are
2024-01-04 and 2024-01-05 — consecutive days, the first of which falls on
a Thursday, not on the start date's weekday. -/
theorem c6_counterexample :
    parse_rrule bodyEmptyWd = .ok ruleEmptyWd
    ∧ (∃ fuel l, next_instances ruleEmptyWd fuel = some l)
    ∧ (∀ fuel l, next_instances ruleEmptyWd fuel = some l →
        l.take 2 = [toOrd 2024 1 4, toOrd 2024 1 5]
        ∧ l.head? = some (toOrd 2024 1 4))
    ∧ wd (toOrd 2024 1 4) ≠ wd (ordOf ruleEmptyWd.dtstart) := by
  refine ⟨parse_bodyEmptyWd,
    @next_instances_terminates ruleEmptyWd (by decide) (Or.inl (by rfl))
      (by decide) (by decide) (by decide), ?_, by decide⟩
  intro fuel l h
  cases fuel with
  | zero => exact Option.noConfusion h
  | succ f =>
    have h2 : next_instances ruleEmptyWd (f + 1) = some l := h
    rw [emptyWd_peel] at h2
    obtain ⟨t, rfl⟩ := runPeriodsWAux_prefix h2
    exact ⟨rfl, rfl⟩

/-- C6 as amended: an empty or absent `week_days` yields
`_byweekday = None` — but *no* weekday restriction at all, not a fallback
to the start date's weekday: dateutil applies the dtstart-weekday default
only when the `byweekday` argument is `None`, and `parse_rrule` always
passes a list.  Every day of each selected week is emitted. -/
theorem c6_empty_weekdays (body : Body) (r : RRule)
    (hp : parse_rrule body = .ok r) (hf : body.freq = some "weeks")
    (hw : body.week_days = []) :
    r.byweekday = none
    ∧ ∀ d, periodSel r (weeklyDays r d)
        = (List.range (7 - wd d).toNat).map (fun (j : Nat) => d + (j : Int)) := by
  obtain ⟨rf, rs, f, st, iv, un, hfq, hst, hfr, hdt, hint, hun, hbr⟩ := parse_rrule_inv hp
  rw [hf] at hfq
  cases hfq
  have hf2 : f = WEEKLY := by
    have hpw : parse_freq "weeks" = .ok WEEKLY := rfl
    rw [hpw] at hfr
    exact (Except.ok.inj hfr).symm
  subst hf2
  have heq : buildRule body WEEKLY st iv un = .ok
      { freq := WEEKLY, dtstart := st, interval := iv, count := none,
        untl := un.map ordOf, byweekday := none, bymonthday := [],
        bynmonthday := [], bysetpos := [] } := by
    unfold buildRule
    rw [hw]
    rfl
  rw [heq] at hbr
  cases hbr
  refine ⟨rfl, ?_⟩
  intro d
  unfold periodSel
  rw [if_pos (by rfl)]
  unfold weeklyDays
  rw [List.filter_eq_self.mpr]
  intro a ha
  rfl

/-- Witness for C6's amended statement at the parsed `bodyEmptyWd`. -/
theorem c6_empty_weekdays_witness :
    (parse_rrule bodyEmptyWd = .ok ruleEmptyWd
     ∧ bodyEmptyWd.freq = some "weeks" ∧ bodyEmptyWd.week_days = [])
    ∧ (ruleEmptyWd.byweekday = none
       ∧ ∀ d, periodSel ruleEmptyWd (weeklyDays ruleEmptyWd d)
           = (List.range (7 - wd d).toNat).map (fun (j : Nat) => d + (j : Int))) :=
  ⟨⟨parse_bodyEmptyWd, rfl, rfl⟩,
   c6_empty_weekdays bodyEmptyWd ruleEmptyWd parse_bodyEmptyWd rfl rfl⟩

/-! ### C8 and C9: concrete first instances -/

/-- Two steps of `ruleLastFri`'s monthly loop: January 2024 emits its last
Friday 2024-01-26 (ordinal 738911), February its last Friday 2024-02-23
(ordinal 738939), and the loop moves to March 2024 having produced 2
dates. -/
theorem lastFri_peel (f : Nat) :
    next_instances ruleLastFri (f + 2)
      = runPeriodsMAux ruleLastFri (xafterCount ruleLastFri) f
          2024 3 2 [738939, 738911] := by rfl

/-- One period of fuel is not enough for `ruleLastFri`'s loop to reach a
stop condition. -/
theorem lastFri_one : next_instances ruleLastFri 1 = none := by rfl

/-- C8 counterexample: the first generated instance of the scenario rule is
2024-01-26 — the last Friday of the *start* month — not 2024-02-23. -/
theorem c8_counterexample :
    parse_rrule bodyLastFri = .ok ruleLastFri
    ∧ (∃ fuel l, next_instances ruleLastFri fuel = some l)
    ∧ (∀ fuel l, next_instances ruleLastFri fuel = some l →
        l.head? = some (toOrd 2024 1 26))
    ∧ toOrd 2024 1 26 ≠ toOrd 2024 2 23 := by
  refine ⟨parse_bodyLastFri,
    @next_instances_terminates ruleLastFri (by decide) (Or.inr (by rfl))
      (by decide) (by decide) (by decide), ?_, by decide⟩
  intro fuel l h
  cases fuel with
  | zero => exact Option.noConfusion h
  | succ f1 =>
    cases f1 with
    | zero =>
      have h2 : next_instances ruleLastFri 1 = some l := h
      rw [lastFri_one] at h2
      exact Option.noConfusion h2
    | succ f =>
      have h2 : next_instances ruleLastFri (f + 2) = some l := h
      rw [lastFri_peel] at h2
      obtain ⟨t, rfl⟩ := runPeriodsMAux_prefix h2
      rfl

/-- C8 as amended: for `{freq:"months", start:"2024-01-01",
month_type:"days of week", month_nth_days:["last"], week_days:["friday"]}`
the first generated instance is `"2024-01-26"` (the last Friday of January
2024: the start month's period is generated first and 2024-01-26 >
dtstart), and `"2024-02-23"` is the *second* instance. -/
theorem c8_first_instances :
    parse_rrule bodyLastFri = .ok ruleLastFri
    ∧ (∃ fuel l, next_instances ruleLastFri fuel = some l)
    ∧ (∀ fuel l, next_instances ruleLastFri fuel = some l →
        l.take 2 = [toOrd 2024 1 26, toOrd 2024 2 23])
    ∧ fmtDate (toOrd 2024 1 26) = "2024-01-26"
    ∧ fmtDate (toOrd 2024 2 23) = "2024-02-23" := by
  refine ⟨parse_bodyLastFri,
    @next_instances_terminates ruleLastFri (by decide) (Or.inr (by rfl))
      (by decide) (by decide) (by decide), ?_, by rfl, by rfl⟩
  intro fuel l h
  cases fuel with
  | zero => exact Option.noConfusion h
  | succ f1 =>
    cases f1 with
    | zero =>
      have h2 : next_instances ruleLastFri 1 = some l := h
      rw [lastFri_one] at h2
      exact Option.noConfusion h2
    | succ f =>
      have h2 : next_instances ruleLastFri (f + 2) = some l := h
      rw [lastFri_peel] at h2
      obtain ⟨t, rfl⟩ := runPeriodsMAux_prefix h2
      rfl

/-- Two steps of `ruleMonWed`'s weekly loop: the week of Monday 2024-01-01
emits only Wednesday 2024-01-03 (ordinal 738888; the Monday start is
excluded by `xafter`'s strict comparison), the week of Monday 2024-01-08
emits 2024-01-08 and 2024-01-10 (ordinals 738893 and 738895), and the
loop moves to Monday 2024-01-15 (ordinal 738900) having produced 3
dates. -/
theorem monWed_peel (f : Nat) :
    next_instances ruleMonWed (f + 2)
      = runPeriodsWAux ruleMonWed (xafterCount ruleMonWed) f
          738900 3 [738895, 738893, 738888] := by rfl

/-- One period of fuel is not enough for `ruleMonWed`'s loop to reach a
stop condition. -/
theorem monWed_one : next_instances ruleMonWed 1 = none := by rfl

/-- C9: for `{freq:"weeks", start:"2024-01-01", interval:1,
week_days:["monday","wednesday"]}` the first two generated instances are
`"2024-01-03"` and `"2024-01-08"`, in that order (the Monday start itself
is excluded by `xafter`'s strict comparison). -/
theorem c9_first_two_instances :
    parse_rrule bodyMonWed = .ok ruleMonWed
    ∧ (∃ fuel l, next_instances ruleMonWed fuel = some l)
    ∧ (∀ fuel l, next_instances ruleMonWed fuel = some l →
        l.take 2 = [toOrd 2024 1 3, toOrd 2024 1 8])
    ∧ fmtDate (toOrd 2024 1 3) = "2024-01-03"
    ∧ fmtDate (toOrd 2024 1 8) = "2024-01-08" := by
  refine ⟨parse_bodyMonWed,
    @next_instances_terminates ruleMonWed (by decide) (Or.inl (by rfl))
      (by decide) (by decide) (by decide), ?_, by rfl, by rfl⟩
  intro fuel l h
  cases fuel with
  | zero => exact Option.noConfusion h
  | succ f1 =>
    cases f1 with
    | zero =>
      have h2 : next_instances ruleMonWed 1 = some l := h
      rw [monWed_one] at h2
      exact Option.noConfusion h2
    | succ f =>
      have h2 : next_instances ruleMonWed (f + 2) = some l := h
      rw [monWed_peel] at h2
      obtain ⟨t, rfl⟩ := runPeriodsWAux_prefix h2
      rfl
